import Mathlib

/-!
# ov5642_save_jpeg: the capture pipeline of `main.cpp`

A shallow embedding of `check_wiring` and `take_picture` (with the FIFO drain
loop at its end) and the properties of the capture pipeline proved about them.

Conventions of the embedding.

* Every call the program makes on a collaborator (camera, file system,
  console, timer) is recorded as an event `Ev`; a run is the list of its events
  in program order.  Values the collaborators return are inputs of the model.
* Bytes are natural numbers.  The program only copies bytes and compares them
  with `0xFF`, `0xD8` and `0xD9`, so no arithmetic on them can overflow.
* `uint8_t buf[256]` is a map from index to byte.  A store `buf[i++] = v` is
  recorded as `Ev.store i v` and `fwrite(buf, n, 1, f)` as `Ev.fwrite` of the
  bytes `buf[0..n)`, whatever `i` and `n` are: the array bound `BUF_SIZE` is
  not built into the state, it is a property of the recorded accesses
  (`inBounds`), so an access outside the array shows in the run.  C gives no
  meaning to an access outside the array; the model keeps the byte stored
  there and reads it back, as a machine does whose memory continues past the
  array.
* Constants of `ov5642.h` and `ov5642_regs.h` are fields of `Hdr`.
-/

namespace Ov5642

/-! ## Data model -/

/-- Image formats accepted by `ArduCAM::set_format`. -/
inductive Format where
  | BMP
  | JPEG
  deriving DecidableEq, Repr

/-- Register addresses, masks and size codes that `main.cpp` takes from
`ov5642.h` and `ov5642_regs.h`; their values are parameters of the model. -/
structure Hdr where
  ARDUCHIP_TEST1 : Nat
  CAPTURE_CTRL_REG : Nat
  ARDUCHIP_TIM : Nat
  VSYNC_LEVEL_MASK : Nat
  ARDUCHIP_TRIG : Nat
  CAP_DONE_MASK : Nat
  OV5642_CHIPID_HIGH : Nat
  OV5642_CHIPID_LOW : Nat
  OV5642_640x480 : Nat
  OV5642_1920x1080 : Nat

/-- One observable operation of the program. -/
inductive Ev where
  | write_reg (addr val : Nat)
  | read_reg (addr val : Nat)
  | wrSensorReg16_8 (addr val : Nat)
  | rdSensorReg16_8 (addr val : Nat)
  | wait_ms (ms : Nat)
  | set_format (f : Format)
  | InitCAM
  | OV5642_set_JPEG_size (size : Nat)
  | flush_fifo
  | clear_fifo_flag
  | start_capture
  | get_bit (addr mask : Nat) (res : Bool)
  | read_fifo_length (n : Nat)
  | fopen (name : String) (ok : Bool)
  | set_fifo_burst
  | read_fifo (b : Nat)
  | store (idx val : Nat)
  | fwrite (bytes : List Nat)
  | fclose
  | printf (fmt : String) (args : List Int)
  deriving DecidableEq

/-- Capacity of `uint8_t buf[256]`. -/
def BUF_SIZE : Nat := 256

def LOW_POWER : Nat := 0

def NORMAL_POWER : Nat := 1

/-- The build-time profile: `#define POWER_MODE LOW_POWER`. -/
def POWER_MODE : Nat := LOW_POWER

/-- The variables of `take_picture` that the drain loop reads and writes:
the local `buf`, `temp`, `temp_last`, `is_header` and the function-static `i`. -/
structure Parser where
  buf : Nat → Nat
  i : Nat
  temp : Nat
  temp_last : Nat
  is_header : Bool

/-- The assignment `buf[idx] = v`. -/
def setBuf (buf : Nat → Nat) (idx v : Nat) : Nat → Nat :=
  fun k => if k = idx then v else buf k

/-- The bytes `buf[0..n)` that `fwrite(buf, n, 1, outFile)` hands to the sink. -/
def bufBytes (buf : Nat → Nat) (n : Nat) : List Nat :=
  (List.range n).map buf

/-- One iteration of `while (length--)` in `take_picture`, after the budget
test: the byte `b` is what `read_fifo()` returns.  The result is the new
variables, the events of the iteration, and whether it ended in `break`. -/
def loop_body (b : Nat) (p : Parser) : Parser × List Ev × Bool :=
  let temp_last := p.temp
  let temp := b
  if temp = 0xD9 ∧ temp_last = 0xFF then
    let buf := setBuf p.buf p.i temp
    let i := p.i + 1
    ({ buf := buf, i := 0, temp := temp, temp_last := temp_last, is_header := false },
     [Ev.read_fifo b, Ev.store p.i temp, Ev.fwrite (bufBytes buf i), Ev.fclose,
      Ev.printf "Image save OK.\r\n" []],
     true)
  else if p.is_header = true then
    if p.i < 256 then
      ({ buf := setBuf p.buf p.i temp, i := p.i + 1, temp := temp, temp_last := temp_last,
         is_header := true },
       [Ev.read_fifo b, Ev.store p.i temp],
       false)
    else
      ({ buf := setBuf p.buf 0 temp, i := 1, temp := temp, temp_last := temp_last,
         is_header := true },
       [Ev.read_fifo b, Ev.fwrite (bufBytes p.buf 256), Ev.store 0 temp, Ev.set_fifo_burst],
       false)
  else if temp = 0xD8 ∧ temp_last = 0xFF then
    ({ buf := setBuf (setBuf p.buf p.i temp_last) (p.i + 1) temp, i := p.i + 2, temp := temp,
       temp_last := temp_last, is_header := true },
     [Ev.read_fifo b, Ev.store p.i temp_last, Ev.store (p.i + 1) temp],
     false)
  else
    ({ buf := p.buf, i := p.i, temp := temp, temp_last := temp_last, is_header := p.is_header },
     [Ev.read_fifo b],
     false)

/-- The loop `while (length--) { ... }` of `take_picture`.  `fifo k` is the
byte the `k`-th `read_fifo()` call of the capture returns and `pos` counts the
calls made so far.  `length` is a `uint32_t`; the body runs only when it is
non-zero, so the decrement that matters never wraps. -/
def drain (fifo : Nat → Nat) : Nat → Nat → Parser → Parser × List Ev
  | 0, _, p => (p, [])
  | length + 1, pos, p =>
    match loop_body (fifo pos) p with
    | (p1, evs, true) => (p1, evs)
    | (p1, evs, false) =>
      let r := drain fifo length (pos + 1) p1
      (r.1, evs ++ r.2)

/-- The drain loop run over an explicit list of FIFO bytes, one iteration per
byte (used to reason about `drain` by induction on the bytes). -/
def drainL : List Nat → Parser → Parser × List Ev
  | [], p => (p, [])
  | b :: bs, p =>
    match loop_body b p with
    | (p1, evs, true) => (p1, evs)
    | (p1, evs, false) =>
      let r := drainL bs p1
      (r.1, evs ++ r.2)

/-- The first `n` bytes a FIFO delivers from position `pos` on. -/
def fifoBytes (fifo : Nat → Nat) (pos n : Nat) : List Nat :=
  (List.range n).map (fun k => fifo (pos + k))

/-- A FIFO that delivers the bytes of `l` and then zeros. -/
def fifoOf (l : List Nat) : Nat → Nat :=
  fun k => l.getD k 0

/-! ## Observations on a run -/

/-- Payload of a sink write. -/
def Ev.written : Ev → List Nat
  | Ev.fwrite bytes => bytes
  | _ => []

/-- The bytes written to the sink, concatenated in write order. -/
def sink (tr : List Ev) : List Nat :=
  (tr.map Ev.written).flatten

def Ev.isRead : Ev → Bool
  | Ev.read_fifo _ => true
  | _ => false

/-- Number of `read_fifo()` calls in a run. -/
def reads (tr : List Ev) : Nat :=
  tr.countP Ev.isRead

/-- Whether an access to `buf` stays inside the array. -/
def Ev.inBounds : Ev → Bool
  | Ev.store idx _ => decide (idx < BUF_SIZE)
  | Ev.fwrite bytes => decide (bytes.length ≤ BUF_SIZE)
  | _ => true

/-- Every store into `buf` is at an index below `BUF_SIZE` and every sink
write takes at most `BUF_SIZE` bytes from it. -/
def inBounds (tr : List Ev) : Bool :=
  tr.all Ev.inBounds

/-- The variables of the drain loop as `take_picture` initialises them when
the function-static index holds `i` and the fresh array `buf` holds `buf0`. -/
def parserInit (i : Nat) (buf0 : Nat → Nat) : Parser :=
  { buf := buf0, i := i, temp := 0, temp_last := 0, is_header := false }

/-- The loop's end-of-image test `(temp == 0xD9) && (temp_last == 0xFF)`
succeeds at the `k`-th byte read (0-based), when `t0` is the value of `temp` on
entry to the loop: byte `k` is `0xD9` and the byte before it is `0xFF`. -/
def eoiAt (t0 : Nat) (fifo : Nat → Nat) (k : Nat) : Prop :=
  fifo k = 0xD9 ∧ (if k = 0 then t0 else fifo (k - 1)) = 0xFF

instance (t0 : Nat) (fifo : Nat → Nat) (k : Nat) : Decidable (eoiAt t0 fifo k) :=
  inferInstanceAs (Decidable (_ ∧ _))

/-- Bytes `j` and `j + 1` of the stream are the start-of-image pair. -/
def soiAt (fifo : Nat → Nat) (j : Nat) : Prop :=
  fifo j = 0xFF ∧ fifo (j + 1) = 0xD8

instance (fifo : Nat → Nat) (j : Nat) : Decidable (soiAt fifo j) :=
  inferInstanceAs (Decidable (_ ∧ _))

/-- No adjacent pair `(a, b)` in the sequence `prev :: l`. -/
def pairFree (a b : Nat) : Nat → List Nat → Prop
  | _, [] => True
  | prev, x :: xs => ¬ (x = b ∧ prev = a) ∧ pairFree a b x xs

instance pairFree.decidable (a b : Nat) : ∀ (t0 : Nat) (l : List Nat),
    Decidable (pairFree a b t0 l)
  | _, [] => isTrue trivial
  | t0, x :: xs =>
    let _ := pairFree.decidable a b x xs
    inferInstanceAs (Decidable (¬ (x = b ∧ t0 = a) ∧ pairFree a b x xs))

/-- The value of `temp` after the bytes of `l` have been read, `t0` being its
value before. -/
def lastByte : Nat → List Nat → Nat
  | t0, [] => t0
  | _, x :: xs => lastByte x xs

/-- Number of sink writes in a run. -/
def fwrites (tr : List Ev) : Nat :=
  tr.countP (fun e => match e with
    | Ev.fwrite _ => true
    | _ => false)

/-- A run that neither closes the file nor reports a saved image. -/
def noCompletion (tr : List Ev) : Prop :=
  Ev.fclose ∉ tr ∧ Ev.printf "Image save OK.\r\n" [] ∉ tr

/-! ## `take_picture` -/

/-- The globals `fnamecamera`, `fnamecntcamera` and the function-static `i` of
`take_picture`: the state that survives a call. -/
structure Globals where
  fnamecamera : String
  fnamecntcamera : Int
  i : Nat

/-- The state at program start: `char fnamecamera[32]` zeroed,
`fnamecntcamera = 0`, `static int i = 0`. -/
def Globals.init : Globals :=
  { fnamecamera := "", fnamecntcamera := 0, i := 0 }

/-- Conversion of an `int` to the 8-bit `char`.  Whether plain `char` is
signed is fixed by the target ABI (unsigned on the ARM targets of mbed), so it
is a parameter. -/
def wrapChar (char_signed : Bool) (v : Int) : Int :=
  if char_signed then (v + 128) % 256 - 128 else v % 256

/-- The conversion `%04d` of `printf`: decimal, zero-padded to a minimum width
of four characters, the sign included. -/
def fmt_04d (v : Int) : List Char :=
  if v < 0 then
    let ds := Nat.toDigits 10 v.natAbs
    '-' :: (List.replicate (3 - ds.length) '0' ++ ds)
  else
    let ds := Nat.toDigits 10 v.toNat
    List.replicate (4 - ds.length) '0' ++ ds

/-- The call `snprintf(fnamecamera, sizeof(fnamecamera), "/sd/jpss%04d.jpg", v)`
with `sizeof(fnamecamera) = 32`: at most 31 characters are kept. -/
def snprintf_fname (v : Int) : String :=
  String.mk ((String.toList "/sd/jpss" ++ fmt_04d v ++ String.toList ".jpg").take 31)

/-- What the environment supplies to one call of `take_picture`: `polls` is
the number of times the capture-done bit reads 0 before it reads 1, `length`
the value of `read_fifo_length()`, `openOk` whether `fopen` returns a file,
`fifo` the bytes `read_fifo()` returns in turn, and `buf0` the indeterminate
contents of the uninitialised local array `buf`. -/
structure Capture where
  polls : Nat
  length : Nat
  openOk : Bool
  fifo : Nat → Nat
  buf0 : Nat → Nat

/-- Events of the block `if (POWER_MODE == LOW_POWER)` at the head of
`take_picture`. -/
def preCapture (h : Hdr) (mode : Nat) : List Ev :=
  if mode = LOW_POWER then
    [Ev.write_reg h.CAPTURE_CTRL_REG 0x00, Ev.set_format Format.JPEG, Ev.wait_ms 200, Ev.InitCAM,
     Ev.write_reg h.ARDUCHIP_TIM h.VSYNC_LEVEL_MASK, Ev.OV5642_set_JPEG_size h.OV5642_640x480,
     Ev.wait_ms 1000]
  else []

/-- Events from `flush_fifo()` to the print of the FIFO length: trigger, the
busy-wait on the capture-done bit, and `read_fifo_length()`. -/
def capture (h : Hdr) (polls length : Nat) : List Ev :=
  [Ev.flush_fifo, Ev.clear_fifo_flag, Ev.start_capture, Ev.printf "Start Capture\r\n" []]
    ++ List.replicate polls (Ev.get_bit h.ARDUCHIP_TRIG h.CAP_DONE_MASK false)
    ++ [Ev.get_bit h.ARDUCHIP_TRIG h.CAP_DONE_MASK true, Ev.printf "Capture Done.\r\n" [],
        Ev.read_fifo_length length, Ev.printf "The fifo length is : %u \r\n" [(length : Int)]]

/-- Events of the second block `if (POWER_MODE == LOW_POWER)`, which follows
the print of the FIFO length. -/
def postCapture (mode : Nat) : List Ev :=
  if mode = LOW_POWER then [Ev.set_format Format.BMP, Ev.InitCAM, Ev.wait_ms 500] else []

/-- The function `take_picture`, for the profile `mode` (the value of
`POWER_MODE`): the globals after the call and the events of the call. -/
def take_picture (h : Hdr) (mode : Nat) (char_signed : Bool) (g : Globals) (c : Capture) :
    Globals × List Ev :=
  let length := c.length % 2 ^ 32
  let fname := snprintf_fname g.fnamecntcamera
  let cnt := wrapChar char_signed (g.fnamecntcamera + 1)
  let head := preCapture h mode ++ capture h c.polls length ++ postCapture mode
    ++ [Ev.fopen fname c.openOk]
  if c.openOk = false then
    ({ fnamecamera := fname, fnamecntcamera := cnt, i := g.i },
     head ++ [Ev.printf "open file failed\r\n" [], Ev.wait_ms 500])
  else
    let r := drain c.fifo length 0 (parserInit g.i c.buf0)
    ({ fnamecamera := fname, fnamecntcamera := cnt, i := r.1.i },
     head ++ [Ev.printf "file opend\r\n" [], Ev.set_fifo_burst] ++ r.2
       ++ [Ev.printf "file save finished\r\n" []])

/-- Successive calls of `take_picture`, as in the loop of `main`: the globals
after the last call and the events of each call. -/
def captures (h : Hdr) (mode : Nat) (char_signed : Bool) :
    Globals → List Capture → Globals × List (List Ev)
  | g, [] => (g, [])
  | g, c :: cs =>
    let r := take_picture h mode char_signed g c
    let rs := captures h mode char_signed r.1 cs
    (rs.1, r.2 :: rs.2)

/-- The file names passed to `fopen` in a run. -/
def fopenNames (tr : List Ev) : List String :=
  tr.filterMap (fun e => match e with
    | Ev.fopen name _ => some name
    | _ => none)

/-- Number of calls in which `fopen` succeeds. -/
def opens (cs : List Capture) : Nat :=
  cs.countP (fun c => c.openOk)

def Ev.isSetFormat : Ev → Bool
  | Ev.set_format _ => true
  | _ => false

/-- The decimal digit `d` as a character. -/
def digitChar (d : Nat) : Char :=
  Char.ofNat (48 + d)

/-- The name "/sd/jpss" followed by `k` as four decimal digits and ".jpg". -/
def jpssName (k : Nat) : String :=
  String.mk (String.toList "/sd/jpss"
    ++ [digitChar (k / 1000 % 10), digitChar (k / 100 % 10), digitChar (k / 10 % 10),
        digitChar (k % 10)]
    ++ String.toList ".jpg")

/-- Number of values the counter takes before `%04d` of it stops being the
call number: 128 where plain `char` is signed, 256 where it is unsigned. -/
def charSpan (char_signed : Bool) : Nat :=
  if char_signed then 128 else 256

/-! ## `check_wiring` -/

/-- The loop `while (1)` of `check_wiring`; `rd j` is the value the `j`-th
read-back of the test register returns (0-based) and `k` counts the read-backs
made so far.  The loop has no exit but the `break`, so the model takes `fuel`,
a bound on the number of iterations, and yields `none` when it is used up. -/
def wiring_loop (h : Hdr) (rd : Nat → Nat) : Nat → Nat → Option (List Ev)
  | 0, _ => none
  | fuel + 1, k =>
    let temp := rd k
    let evs := [Ev.write_reg h.ARDUCHIP_TEST1 0x55, Ev.wait_ms 200,
      Ev.read_reg h.ARDUCHIP_TEST1 temp, Ev.printf "temp:0x%x\n" [(temp : Int)]]
    if temp ≠ 0x55 then
      (wiring_loop h rd fuel (k + 1)).map
        (fun r => evs ++ [Ev.printf "SPI interface Error!\r\n" []] ++ r)
    else
      some (evs ++ [Ev.printf "SPI interface OK.\r\n" []])

/-- What follows the loop in `check_wiring`: the CPLD reset pulse, the sensor
page select and the two chip-ID reads, which return `vid` and `pid`. -/
def wiring_tail (h : Hdr) (vid pid : Nat) : List Ev :=
  [Ev.write_reg 0x07 0x80, Ev.wait_ms 100, Ev.write_reg 0x07 0x00, Ev.wait_ms 100,
   Ev.wrSensorReg16_8 0xff 0x01,
   Ev.rdSensorReg16_8 h.OV5642_CHIPID_HIGH vid, Ev.rdSensorReg16_8 h.OV5642_CHIPID_LOW pid,
   if vid ≠ 0x56 ∨ pid ≠ 0x42 then Ev.printf "Can\x27t find OV5642 module!\r\n" []
   else Ev.printf "OV5642 detected\r\n" []]

/-- The function `check_wiring`. -/
def check_wiring (h : Hdr) (rd : Nat → Nat) (vid pid : Nat) (fuel : Nat) : Option (List Ev) :=
  (wiring_loop h rd fuel 0).map (fun evs => evs ++ wiring_tail h vid pid)

/-- Events of one pass through the wiring loop whose read-back is `temp`. -/
def wiringPass (h : Hdr) (temp : Nat) : List Ev :=
  [Ev.write_reg h.ARDUCHIP_TEST1 0x55, Ev.wait_ms 200, Ev.read_reg h.ARDUCHIP_TEST1 temp,
   Ev.printf "temp:0x%x\n" [(temp : Int)],
   if temp ≠ 0x55 then Ev.printf "SPI interface Error!\r\n" []
   else Ev.printf "SPI interface OK.\r\n" []]

/-! ## Concrete inputs -/

/-- The header constants with the values of the ArduCAM library. -/
def arducamHdr : Hdr :=
  { ARDUCHIP_TEST1 := 0x00, CAPTURE_CTRL_REG := 0x01, ARDUCHIP_TIM := 0x03,
    VSYNC_LEVEL_MASK := 0x02, ARDUCHIP_TRIG := 0x41, CAP_DONE_MASK := 0x08,
    OV5642_CHIPID_HIGH := 0x300a, OV5642_CHIPID_LOW := 0x300b,
    OV5642_640x480 := 1, OV5642_1920x1080 := 5 }

/-- An array whose bytes are all zero. -/
def zeroBuf : Nat → Nat :=
  fun _ => 0

/-- The stream of the end-to-end scenario. -/
def scenario : List Nat :=
  [0x00, 0xFF, 0xD8, 0x01, 0x02, 0xFF, 0xD9, 0x99]

/-- A stream with an end-of-image pair ahead of the frame. -/
def eoiFirst : List Nat :=
  [0xFF, 0xD9, 0xFF, 0xD8, 0x01, 0xFF, 0xD9]

/-- A call whose file cannot be opened. -/
def failedOpen : Capture :=
  { polls := 0, length := 0, openOk := false, fifo := zeroBuf, buf0 := zeroBuf }

/-- A call that opens its file and is told the FIFO holds no byte. -/
def emptyCapture : Capture :=
  { polls := 0, length := 0, openOk := true, fifo := zeroBuf, buf0 := zeroBuf }

/-- The end-to-end scenario as a call: the capture-done bit reads 0 once. -/
def scenarioCapture : Capture :=
  { polls := 1, length := 8, openOk := true, fifo := fifoOf scenario, buf0 := zeroBuf }

/-- A call whose budget of 3 bytes ends inside the frame, one byte after SOI. -/
def cutCapture : Capture :=
  { polls := 0, length := 3, openOk := true, fifo := fifoOf [0xFF, 0xD8, 0x01], buf0 := zeroBuf }

/-- A call that receives the complete 4-byte frame `FF D8 FF D9`, its local
array holding `buf0` on entry. -/
def tinyCapture (buf0 : Nat → Nat) : Capture :=
  { polls := 0, length := 4, openOk := true, fifo := fifoOf [0xFF, 0xD8, 0xFF, 0xD9],
    buf0 := buf0 }

/-- An array whose bytes are all `0xAA`. -/
def staleBuf : Nat → Nat :=
  fun _ => 0xAA

/-- A call that receives SOI and 254 payload bytes, 256 bytes in all and no
EOI, with a budget of 256, its local array holding `0xAA` bytes on entry. -/
def openFrame256 : Capture :=
  { polls := 0, length := 256, openOk := true,
    fifo := fifoOf ([0xFF, 0xD8] ++ List.replicate 254 0x11), buf0 := staleBuf }

/-- A stream of 301 bytes: one byte, SOI, 298 payload bytes, no EOI. -/
def longOpenFrame : List Nat :=
  [0x00, 0xFF, 0xD8] ++ List.replicate 298 0x11

/-- A call that receives `longOpenFrame` with a budget of 301. -/
def longCutCapture : Capture :=
  { polls := 0, length := 301, openOk := true, fifo := fifoOf longOpenFrame, buf0 := zeroBuf }

/-! ## The loop body and the drain loop -/

set_option maxRecDepth 100000

theorem loop_body_eoi (b : Nat) (p : Parser) (h : b = 0xD9 ∧ p.temp = 0xFF) :
    loop_body b p =
      ({ buf := setBuf p.buf p.i b, i := 0, temp := b, temp_last := p.temp, is_header := false },
       [Ev.read_fifo b, Ev.store p.i b, Ev.fwrite (bufBytes (setBuf p.buf p.i b) (p.i + 1)),
        Ev.fclose, Ev.printf "Image save OK.\r\n" []],
       true) := by
  simp [loop_body, h]

theorem loop_body_append (b : Nat) (p : Parser) (h : ¬ (b = 0xD9 ∧ p.temp = 0xFF))
    (hh : p.is_header = true) (hi : p.i < 256) :
    loop_body b p =
      ({ buf := setBuf p.buf p.i b, i := p.i + 1, temp := b, temp_last := p.temp,
         is_header := true },
       [Ev.read_fifo b, Ev.store p.i b], false) := by
  simp only [loop_body, h, hh, hi, if_true, if_false]

theorem loop_body_flush (b : Nat) (p : Parser) (h : ¬ (b = 0xD9 ∧ p.temp = 0xFF))
    (hh : p.is_header = true) (hi : ¬ p.i < 256) :
    loop_body b p =
      ({ buf := setBuf p.buf 0 b, i := 1, temp := b, temp_last := p.temp, is_header := true },
       [Ev.read_fifo b, Ev.fwrite (bufBytes p.buf 256), Ev.store 0 b, Ev.set_fifo_burst],
       false) := by
  simp only [loop_body, h, hh, hi, if_true, if_false]

theorem loop_body_soi (b : Nat) (p : Parser) (hh : p.is_header = false)
    (hs : b = 0xD8 ∧ p.temp = 0xFF) :
    loop_body b p =
      ({ buf := setBuf (setBuf p.buf p.i p.temp) (p.i + 1) b, i := p.i + 2, temp := b,
         temp_last := p.temp, is_header := true },
       [Ev.read_fifo b, Ev.store p.i p.temp, Ev.store (p.i + 1) b], false) := by
  have h : ¬ (b = 0xD9 ∧ p.temp = 0xFF) := by
    rintro ⟨h1, _⟩
    omega
  simp [loop_body, h, hh, hs]

theorem loop_body_skip (b : Nat) (p : Parser) (h : ¬ (b = 0xD9 ∧ p.temp = 0xFF))
    (hh : p.is_header = false) (hs : ¬ (b = 0xD8 ∧ p.temp = 0xFF)) :
    loop_body b p =
      ({ buf := p.buf, i := p.i, temp := b, temp_last := p.temp, is_header := false },
       [Ev.read_fifo b], false) := by
  simp [loop_body, h, hh, hs]

/-- The five ways through one iteration. -/
theorem loop_body_cases (b : Nat) (p : Parser) :
    (b = 0xD9 ∧ p.temp = 0xFF) ∨
    (¬ (b = 0xD9 ∧ p.temp = 0xFF) ∧ p.is_header = true ∧ p.i < 256) ∨
    (¬ (b = 0xD9 ∧ p.temp = 0xFF) ∧ p.is_header = true ∧ ¬ p.i < 256) ∨
    (¬ (b = 0xD9 ∧ p.temp = 0xFF) ∧ p.is_header = false ∧ (b = 0xD8 ∧ p.temp = 0xFF)) ∨
    (¬ (b = 0xD9 ∧ p.temp = 0xFF) ∧ p.is_header = false ∧ ¬ (b = 0xD8 ∧ p.temp = 0xFF)) := by
  by_cases h : b = 0xD9 ∧ p.temp = 0xFF
  · exact Or.inl h
  · cases hh : p.is_header
    · by_cases hs : b = 0xD8 ∧ p.temp = 0xFF
      · exact Or.inr (Or.inr (Or.inr (Or.inl ⟨h, rfl, hs⟩)))
      · exact Or.inr (Or.inr (Or.inr (Or.inr ⟨h, rfl, hs⟩)))
    · by_cases hi : p.i < 256
      · exact Or.inr (Or.inl ⟨h, rfl, hi⟩)
      · exact Or.inr (Or.inr (Or.inl ⟨h, rfl, hi⟩))

theorem loop_body_brk (b : Nat) (p : Parser) :
    (loop_body b p).2.2 = true ↔ (b = 0xD9 ∧ p.temp = 0xFF) := by
  rcases loop_body_cases b p with h | ⟨h, hh, hi⟩ | ⟨h, hh, hi⟩ | ⟨h, hh, hs⟩ | ⟨h, hh, hs⟩
  · rw [loop_body_eoi b p h]; exact ⟨fun _ => h, fun _ => rfl⟩
  · rw [loop_body_append b p h hh hi]; exact ⟨fun hf => by simp at hf, fun hf => absurd hf h⟩
  · rw [loop_body_flush b p h hh hi]; exact ⟨fun hf => by simp at hf, fun hf => absurd hf h⟩
  · rw [loop_body_soi b p hh hs]; exact ⟨fun hf => by simp at hf, fun hf => absurd hf h⟩
  · rw [loop_body_skip b p h hh hs]; exact ⟨fun hf => by simp at hf, fun hf => absurd hf h⟩

theorem loop_body_temp (b : Nat) (p : Parser) : (loop_body b p).1.temp = b := by
  rcases loop_body_cases b p with h | ⟨h, hh, hi⟩ | ⟨h, hh, hi⟩ | ⟨h, hh, hs⟩ | ⟨h, hh, hs⟩
  · rw [loop_body_eoi b p h]
  · rw [loop_body_append b p h hh hi]
  · rw [loop_body_flush b p h hh hi]
  · rw [loop_body_soi b p hh hs]
  · rw [loop_body_skip b p h hh hs]

theorem loop_body_reads (b : Nat) (p : Parser) : reads (loop_body b p).2.1 = 1 := by
  rcases loop_body_cases b p with h | ⟨h, hh, hi⟩ | ⟨h, hh, hi⟩ | ⟨h, hh, hs⟩ | ⟨h, hh, hs⟩
  · rw [loop_body_eoi b p h]; rfl
  · rw [loop_body_append b p h hh hi]; rfl
  · rw [loop_body_flush b p h hh hi]; rfl
  · rw [loop_body_soi b p hh hs]; rfl
  · rw [loop_body_skip b p h hh hs]; rfl

theorem reads_append (a b : List Ev) : reads (a ++ b) = reads a + reads b := by
  simp [reads]

theorem drain_succ_brk (fifo : Nat → Nat) (n pos : Nat) (p : Parser)
    (h : (loop_body (fifo pos) p).2.2 = true) :
    drain fifo (n + 1) pos p = ((loop_body (fifo pos) p).1, (loop_body (fifo pos) p).2.1) := by
  rw [drain]
  rcases hb : loop_body (fifo pos) p with ⟨p1, evs, brk⟩
  rw [hb] at h
  simp only at h
  subst h
  rfl

theorem drain_succ_next (fifo : Nat → Nat) (n pos : Nat) (p : Parser)
    (h : (loop_body (fifo pos) p).2.2 = false) :
    drain fifo (n + 1) pos p
      = ((drain fifo n (pos + 1) (loop_body (fifo pos) p).1).1,
         (loop_body (fifo pos) p).2.1 ++ (drain fifo n (pos + 1) (loop_body (fifo pos) p).1).2) := by
  rw [drain]
  rcases hb : loop_body (fifo pos) p with ⟨p1, evs, brk⟩
  rw [hb] at h
  simp only at h
  subst h
  rfl

theorem eoiAt_shift (t0 : Nat) (fifo : Nat → Nat) (pos k : Nat) :
    eoiAt (fifo pos) (fun j => fifo (pos + 1 + j)) k ↔ eoiAt t0 (fun j => fifo (pos + j)) (k + 1) := by
  unfold eoiAt
  cases k with
  | zero => simp
  | succ k =>
    simp only [Nat.add_sub_cancel, Nat.succ_ne_zero, if_false]
    have e1 : pos + 1 + (k + 1) = pos + (k + 1 + 1) := by omega
    have e2 : pos + 1 + k = pos + (k + 1) := by omega
    simp [e1, e2]

theorem reads_drain (fifo : Nat → Nat) (n : Nat) : ∀ (pos : Nat) (p : Parser),
    reads (drain fifo n pos p).2 ≤ n ∧
    ((∀ k < n, ¬ eoiAt p.temp (fun j => fifo (pos + j)) k) → reads (drain fifo n pos p).2 = n) ∧
    (∀ k < n, eoiAt p.temp (fun j => fifo (pos + j)) k →
      (∀ j < k, ¬ eoiAt p.temp (fun j => fifo (pos + j)) j) →
      reads (drain fifo n pos p).2 = k + 1) := by
  induction n with
  | zero =>
    intro pos p
    refine ⟨by simp [drain, reads], fun _ => by simp [drain, reads], ?_⟩
    intro k hk
    omega
  | succ n ih =>
    intro pos p
    by_cases hb : (loop_body (fifo pos) p).2.2 = true
    · have h0 : eoiAt p.temp (fun j => fifo (pos + j)) 0 := by
        have := (loop_body_brk _ _).1 hb
        simpa [eoiAt] using this
      rw [drain_succ_brk fifo n pos p hb]
      simp only [loop_body_reads]
      refine ⟨by omega, fun hno => absurd h0 (hno 0 (by omega)), ?_⟩
      intro k _ _ hfirst
      cases k with
      | zero => rfl
      | succ k => exact absurd h0 (hfirst 0 (by omega))
    · have hb' : (loop_body (fifo pos) p).2.2 = false := by simpa using hb
      have h0 : ¬ eoiAt p.temp (fun j => fifo (pos + j)) 0 := by
        intro h
        apply hb
        apply (loop_body_brk _ _).2
        simpa [eoiAt] using h
      rw [drain_succ_next fifo n pos p hb', reads_append, loop_body_reads]
      obtain ⟨ih1, ih2, ih3⟩ := ih (pos + 1) (loop_body (fifo pos) p).1
      rw [loop_body_temp] at ih2 ih3
      refine ⟨by omega, ?_, ?_⟩
      · intro hno
        rw [ih2 (fun k hk => fun h => hno (k + 1) (by omega) ((eoiAt_shift p.temp fifo pos k).1 h))]
        omega
      · intro k hk hat hfirst
        cases k with
        | zero => exact absurd hat h0
        | succ k =>
          rw [ih3 k (by omega) ((eoiAt_shift p.temp fifo pos k).2 hat)
            (fun j hj h => hfirst (j + 1) (by omega) ((eoiAt_shift p.temp fifo pos j).1 h))]
          omega

theorem fifoBytes_succ (fifo : Nat → Nat) (pos n : Nat) :
    fifoBytes fifo pos (n + 1) = fifo pos :: fifoBytes fifo (pos + 1) n := by
  simp only [fifoBytes, List.range_succ_eq_map, List.map_cons, List.map_map, Nat.add_zero]
  congr 1
  apply List.map_congr_left
  intro k _
  simp only [Function.comp, Nat.succ_eq_add_one]
  congr 1
  omega

theorem drainL_cons_brk (b : Nat) (bs : List Nat) (p : Parser)
    (h : (loop_body b p).2.2 = true) :
    drainL (b :: bs) p = ((loop_body b p).1, (loop_body b p).2.1) := by
  rw [drainL]
  rcases hb : loop_body b p with ⟨p1, evs, brk⟩
  rw [hb] at h
  simp only at h
  subst h
  rfl

theorem drainL_cons_next (b : Nat) (bs : List Nat) (p : Parser)
    (h : (loop_body b p).2.2 = false) :
    drainL (b :: bs) p
      = ((drainL bs (loop_body b p).1).1,
         (loop_body b p).2.1 ++ (drainL bs (loop_body b p).1).2) := by
  rw [drainL]
  rcases hb : loop_body b p with ⟨p1, evs, brk⟩
  rw [hb] at h
  simp only at h
  subst h
  rfl

theorem drain_eq_drainL (fifo : Nat → Nat) (n : Nat) : ∀ (pos : Nat) (p : Parser),
    drain fifo n pos p = drainL (fifoBytes fifo pos n) p := by
  induction n with
  | zero => intro pos p; rfl
  | succ n ih =>
    intro pos p
    rw [fifoBytes_succ]
    cases hb : (loop_body (fifo pos) p).2.2
    · rw [drain_succ_next fifo n pos p hb, drainL_cons_next _ _ p hb, ih]
    · rw [drain_succ_brk fifo n pos p hb, drainL_cons_brk _ _ p hb]

theorem loop_body_next_of_not_eoi (b : Nat) (p : Parser) (h : ¬ (b = 0xD9 ∧ p.temp = 0xFF)) :
    (loop_body b p).2.2 = false := by
  cases hb : (loop_body b p).2.2
  · rfl
  · exact absurd ((loop_body_brk b p).1 hb) h

theorem pairFree_append (a b t0 : Nat) (l1 l2 : List Nat) :
    pairFree a b t0 (l1 ++ l2) ↔ pairFree a b t0 l1 ∧ pairFree a b (lastByte t0 l1) l2 := by
  induction l1 generalizing t0 with
  | nil => simp [pairFree, lastByte]
  | cons x xs ih => simp [pairFree, lastByte, ih, and_assoc]

theorem lastByte_append_singleton (t0 x : Nat) (l : List Nat) : lastByte t0 (l ++ [x]) = x := by
  induction l generalizing t0 with
  | nil => rfl
  | cons y ys ih => simpa [lastByte] using ih y

/-- A run over bytes without an end-of-image pair does not break: it continues
with what follows. -/
theorem drainL_append (l1 l2 : List Nat) : ∀ (p : Parser), pairFree 0xFF 0xD9 p.temp l1 →
    drainL (l1 ++ l2) p
      = ((drainL l2 (drainL l1 p).1).1, (drainL l1 p).2 ++ (drainL l2 (drainL l1 p).1).2) := by
  induction l1 with
  | nil => intro p _; simp [drainL]
  | cons x xs ih =>
    intro p hp
    obtain ⟨hx, hxs⟩ := hp
    have hb := loop_body_next_of_not_eoi x p hx
    have hxs' : pairFree 0xFF 0xD9 (loop_body x p).1.temp xs := by rw [loop_body_temp]; exact hxs
    rw [List.cons_append, drainL_cons_next _ _ p hb, drainL_cons_next _ _ p hb, ih _ hxs']
    simp [List.append_assoc]

theorem drainL_temp (l : List Nat) : ∀ (p : Parser), pairFree 0xFF 0xD9 p.temp l →
    (drainL l p).1.temp = lastByte p.temp l := by
  induction l with
  | nil => intro p _; rfl
  | cons x xs ih =>
    intro p hp
    obtain ⟨hx, hxs⟩ := hp
    have hb := loop_body_next_of_not_eoi x p hx
    have hxs' : pairFree 0xFF 0xD9 (loop_body x p).1.temp xs := by rw [loop_body_temp]; exact hxs
    rw [drainL_cons_next _ _ p hb]
    simp only [lastByte]
    rw [ih _ hxs', loop_body_temp]

/-- While searching, bytes that complete neither marker are read and dropped. -/
theorem drainL_searching (l : List Nat) : ∀ (p : Parser), p.is_header = false →
    pairFree 0xFF 0xD9 p.temp l → pairFree 0xFF 0xD8 p.temp l →
    (drainL l p).2 = l.map Ev.read_fifo ∧ (drainL l p).1.is_header = false ∧
    (drainL l p).1.i = p.i ∧ (drainL l p).1.buf = p.buf := by
  induction l with
  | nil => intro p hh _ _; exact ⟨rfl, hh, rfl, rfl⟩
  | cons x xs ih =>
    intro p hh he hs
    obtain ⟨hx, hxs⟩ := he
    obtain ⟨hy, hys⟩ := hs
    have hb := loop_body_next_of_not_eoi x p hx
    have hl := loop_body_skip x p hx hh hy
    rw [drainL_cons_next _ _ p hb]
    have := ih (loop_body x p).1 (by rw [hl]) (by rw [loop_body_temp]; exact hxs)
      (by rw [loop_body_temp]; exact hys)
    rw [hl] at this ⊢
    simpa using this

theorem bufBytes_length (buf : Nat → Nat) (n : Nat) : (bufBytes buf n).length = n := by
  simp [bufBytes]

theorem bufBytes_setBuf_ge (buf : Nat → Nat) (n idx v : Nat) (h : n ≤ idx) :
    bufBytes (setBuf buf idx v) n = bufBytes buf n := by
  apply List.map_congr_left
  intro k hk
  have : k < n := List.mem_range.1 hk
  simp only [setBuf]
  rw [if_neg (by omega)]

theorem bufBytes_push (buf : Nat → Nat) (n v : Nat) :
    bufBytes (setBuf buf n v) (n + 1) = bufBytes buf n ++ [v] := by
  have h := bufBytes_setBuf_ge buf n n v (Nat.le_refl n)
  simp only [bufBytes] at h ⊢
  rw [List.range_succ, List.map_append, h]
  simp [setBuf]

theorem bufBytes_push2 (buf : Nat → Nat) (n a b : Nat) :
    bufBytes (setBuf (setBuf buf n a) (n + 1) b) (n + 2) = bufBytes buf n ++ [a, b] := by
  rw [bufBytes_push (setBuf buf n a) (n + 1) b, bufBytes_push buf n a]
  simp

theorem sink_append (a b : List Ev) : sink (a ++ b) = sink a ++ sink b := by
  simp [sink]

theorem fwrites_append (a b : List Ev) : fwrites (a ++ b) = fwrites a + fwrites b := by
  simp [fwrites]

theorem inBounds_append (a b : List Ev) : inBounds (a ++ b) = (inBounds a && inBounds b) := by
  simp [inBounds]

theorem noCompletion_append (a b : List Ev) :
    noCompletion (a ++ b) ↔ noCompletion a ∧ noCompletion b := by
  simp only [noCompletion, List.mem_append, not_or]
  tauto

/-- Without an end-of-image pair the loop reads every byte and neither closes
the file nor reports a saved image, whatever state it starts in. -/
theorem drainL_no_eoi (l : List Nat) : ∀ (p : Parser), pairFree 0xFF 0xD9 p.temp l →
    reads (drainL l p).2 = l.length ∧ noCompletion (drainL l p).2 := by
  induction l with
  | nil => intro p _; exact ⟨rfl, by simp [drainL, noCompletion]⟩
  | cons x xs ih =>
    intro p hp
    obtain ⟨hx, hxs⟩ := hp
    have hb := loop_body_next_of_not_eoi x p hx
    obtain ⟨ih1, ih2⟩ := ih (loop_body x p).1 (by rw [loop_body_temp]; exact hxs)
    rw [drainL_cons_next _ _ p hb]
    refine ⟨by rw [reads_append, loop_body_reads, ih1, List.length_cons]; omega, ?_⟩
    rw [noCompletion_append]
    refine ⟨?_, ih2⟩
    rcases loop_body_cases x p with h | ⟨h, hh, hi⟩ | ⟨h, hh, hi⟩ | ⟨h, hh, hs⟩ | ⟨h, hh, hs⟩
    · exact absurd h hx
    · rw [loop_body_append x p h hh hi]; simp [noCompletion]
    · rw [loop_body_flush x p h hh hi]; simp [noCompletion]
    · rw [loop_body_soi x p hh hs]; simp [noCompletion]
    · rw [loop_body_skip x p h hh hs]; simp [noCompletion]

/-- Inside a frame, with between 1 and 256 bytes in `buf`: the bytes written so
far followed by the bytes in `buf` are the bytes that were in `buf` followed by
the bytes read; all writes are whole 256-byte chunks and stay inside `buf`. -/
theorem drainL_inframe (l : List Nat) : ∀ (p : Parser), p.is_header = true → 1 ≤ p.i →
    p.i ≤ 256 → pairFree 0xFF 0xD9 p.temp l →
    (drainL l p).1.is_header = true ∧ 1 ≤ (drainL l p).1.i ∧ (drainL l p).1.i ≤ 256 ∧
    sink (drainL l p).2 ++ bufBytes (drainL l p).1.buf (drainL l p).1.i
      = bufBytes p.buf p.i ++ l ∧
    (sink (drainL l p).2).length = 256 * fwrites (drainL l p).2 ∧
    (∀ bytes, Ev.fwrite bytes ∈ (drainL l p).2 → bytes.length = 256) ∧
    inBounds (drainL l p).2 = true := by
  induction l with
  | nil =>
    intro p hh h1 h2 _
    refine ⟨hh, h1, h2, by simp [drainL, sink], by simp [drainL, sink, fwrites], ?_, ?_⟩
    · intro bytes hb
      simp [drainL] at hb
    · simp [drainL, inBounds]
  | cons x xs ih =>
    intro p hh h1 h2 hp
    obtain ⟨hx, hxs⟩ := hp
    have hb := loop_body_next_of_not_eoi x p hx
    have hxs' : pairFree 0xFF 0xD9 (loop_body x p).1.temp xs := by rw [loop_body_temp]; exact hxs
    rw [drainL_cons_next _ _ p hb]
    by_cases hi : p.i < 256
    · have hl := loop_body_append x p hx hh hi
      obtain ⟨r1, r2, r3, r4, r5, r6, r7⟩ := ih (loop_body x p).1 (by rw [hl])
        (by rw [hl]; simp) (by rw [hl]; simp only; omega) hxs'
      rw [hl] at r1 r2 r3 r4 r5 r6 r7 ⊢
      simp only at r1 r2 r3 r4 r5 r6 r7 ⊢
      refine ⟨r1, r2, r3, ?_, ?_, ?_, ?_⟩
      · rw [sink_append, List.append_assoc, r4, bufBytes_push]
        simp [sink, Ev.written]
      · rw [sink_append, fwrites_append, List.length_append, r5]
        simp [sink, Ev.written, fwrites]
      · intro bytes hm
        rcases List.mem_append.1 hm with hm | hm
        · simp at hm
        · exact r6 bytes hm
      · rw [inBounds_append, r7]
        simp [inBounds, Ev.inBounds, BUF_SIZE, hi]
    · have hl := loop_body_flush x p hx hh hi
      have hi' : p.i = 256 := by omega
      obtain ⟨r1, r2, r3, r4, r5, r6, r7⟩ := ih (loop_body x p).1 (by rw [hl])
        (by rw [hl]) (by rw [hl]; simp) hxs'
      rw [hl] at r1 r2 r3 r4 r5 r6 r7 ⊢
      simp only at r1 r2 r3 r4 r5 r6 r7 ⊢
      refine ⟨r1, r2, r3, ?_, ?_, ?_, ?_⟩
      · rw [sink_append, List.append_assoc, r4]
        have e : bufBytes (setBuf p.buf 0 x) 1 = [x] := by
          simpa [bufBytes] using bufBytes_push p.buf 0 x
        rw [e, hi']
        simp [sink, Ev.written]
      · rw [sink_append, fwrites_append, List.length_append, r5]
        simp [sink, Ev.written, fwrites, bufBytes_length]
        omega
      · intro bytes hm
        rcases List.mem_append.1 hm with hm | hm
        · simp at hm
          rw [hm, bufBytes_length]
        · exact r6 bytes hm
      · rw [inBounds_append, r7]
        simp [inBounds, Ev.inBounds, BUF_SIZE, bufBytes_length]

theorem sink_reads (l : List Nat) : sink (l.map Ev.read_fifo) = [] := by
  induction l with
  | nil => rfl
  | cons x xs ih => simp [sink, Ev.written]

theorem inBounds_reads (l : List Nat) : inBounds (l.map Ev.read_fifo) = true := by
  simp [inBounds, Ev.inBounds]

theorem reads_reads (l : List Nat) : reads (l.map Ev.read_fifo) = l.length := by
  induction l with
  | nil => rfl
  | cons x xs ih => simp [reads, Ev.isRead, List.countP_cons] at ih ⊢

theorem fwrites_reads (l : List Nat) : fwrites (l.map Ev.read_fifo) = 0 := by
  induction l with
  | nil => rfl
  | cons x xs ih => simp [fwrites, List.countP_cons] at ih ⊢

/-- From the byte that completes the start-of-image pair to the end-of-image
pair: the run of the loop from a searching state `q` that has just read `0xFF`
and has room for the two marker bytes. -/
theorem drainL_frame (body post : List Nat) (q : Parser) (hh : q.is_header = false)
    (ht : q.temp = 0xFF) (hi : q.i + 2 ≤ 256)
    (hbody : pairFree 0xFF 0xD9 0xD8 (body ++ [0xFF])) :
    ∃ (q3 : Parser) (e3 : List Ev),
      1 ≤ q3.i ∧ q3.i ≤ 256 ∧
      q3.i + 256 * fwrites e3 = q.i + body.length + 3 ∧
      sink e3 ++ bufBytes q3.buf q3.i = bufBytes q.buf q.i ++ [0xFF, 0xD8] ++ body ++ [0xFF] ∧
      (∀ bytes, Ev.fwrite bytes ∈ e3 → bytes.length = 256) ∧
      inBounds e3 = true ∧ reads e3 = body.length + 1 ∧ noCompletion e3 ∧
      (drainL (0xD8 :: ((body ++ [0xFF]) ++ 0xD9 :: post)) q).1.i = 0 ∧
      (drainL (0xD8 :: ((body ++ [0xFF]) ++ 0xD9 :: post)) q).2
        = [Ev.read_fifo 0xD8, Ev.store q.i 0xFF, Ev.store (q.i + 1) 0xD8] ++ e3
          ++ [Ev.read_fifo 0xD9, Ev.store q3.i 0xD9,
              Ev.fwrite (bufBytes q3.buf q3.i ++ [0xD9]), Ev.fclose,
              Ev.printf "Image save OK.\r\n" []] := by
  have hs := loop_body_soi 0xD8 q hh ⟨rfl, ht⟩
  have hb : (loop_body 0xD8 q).2.2 = false := by rw [hs]
  have hq2i : (loop_body 0xD8 q).1.i = q.i + 2 := by rw [hs]
  have hq2b : (loop_body 0xD8 q).1.buf = setBuf (setBuf q.buf q.i q.temp) (q.i + 1) 0xD8 := by
    rw [hs]
  have hfree : pairFree 0xFF 0xD9 (loop_body 0xD8 q).1.temp (body ++ [0xFF]) := by
    rw [loop_body_temp]; exact hbody
  obtain ⟨r1, r2, r3, r4, r5, r6, r7⟩ := drainL_inframe (body ++ [0xFF]) (loop_body 0xD8 q).1
    (by rw [hs]) (by rw [hq2i]; omega) (by rw [hq2i]; omega) hfree
  obtain ⟨n1, n2⟩ := drainL_no_eoi (body ++ [0xFF]) (loop_body 0xD8 q).1 hfree
  have htemp := drainL_temp (body ++ [0xFF]) (loop_body 0xD8 q).1 hfree
  rw [lastByte_append_singleton] at htemp
  have he := loop_body_eoi 0xD9 (drainL (body ++ [0xFF]) (loop_body 0xD8 q).1).1 ⟨rfl, htemp⟩
  have hbrk : (loop_body 0xD9 (drainL (body ++ [0xFF]) (loop_body 0xD8 q).1).1).2.2 = true := by
    rw [he]
  refine ⟨(drainL (body ++ [0xFF]) (loop_body 0xD8 q).1).1,
    (drainL (body ++ [0xFF]) (loop_body 0xD8 q).1).2, r2, r3, ?_, ?_, r6, r7, ?_, n2, ?_, ?_⟩
  · have hlen := congrArg List.length r4
    rw [List.length_append, r5, bufBytes_length, List.length_append, bufBytes_length,
      hq2i] at hlen
    simp only [List.length_append, List.length_singleton] at hlen
    omega
  · rw [r4, hq2i, hq2b, bufBytes_push2, ht]
    simp
  · rw [n1]; simp
  · rw [drainL_cons_next _ _ q hb, drainL_append _ _ _ hfree, drainL_cons_brk _ _ _ hbrk, he]
  · rw [drainL_cons_next _ _ q hb, drainL_append _ _ _ hfree, drainL_cons_brk _ _ _ hbrk, he]
    simp only
    rw [bufBytes_push, hs, ht]
    simp

theorem fifoBytes_add (fifo : Nat → Nat) (pos a b : Nat) :
    fifoBytes fifo pos (a + b) = fifoBytes fifo pos a ++ fifoBytes fifo (pos + a) b := by
  induction a generalizing pos with
  | zero => simp [fifoBytes]
  | succ a ih =>
    have e : a + 1 + b = (a + b) + 1 := by omega
    rw [e, fifoBytes_succ, fifoBytes_succ, ih (pos + 1)]
    have e2 : pos + 1 + a = pos + (a + 1) := by omega
    rw [e2]
    rfl

theorem fifoBytes_length (fifo : Nat → Nat) (pos n : Nat) : (fifoBytes fifo pos n).length = n := by
  simp [fifoBytes]

theorem lastByte_fifoBytes (fifo : Nat → Nat) (pos n t0 : Nat) :
    lastByte t0 (fifoBytes fifo pos (n + 1)) = fifo (pos + n) := by
  rw [fifoBytes_add]
  have : fifoBytes fifo (pos + n) 1 = [fifo (pos + n)] := by
    simp [fifoBytes, List.range_succ]
  rw [this, lastByte_append_singleton]

/-- An index-wise description of the absence of a pair in a stretch of the
stream. -/
theorem pairFree_fifoBytes (a b : Nat) (fifo : Nat → Nat) (n : Nat) : ∀ (pos t0 : Nat),
    (∀ k < n, ¬ (fifo (pos + k) = b ∧ (if k = 0 then t0 else fifo (pos + k - 1)) = a)) →
    pairFree a b t0 (fifoBytes fifo pos n) := by
  induction n with
  | zero => intro pos t0 _; simp [fifoBytes, pairFree]
  | succ n ih =>
    intro pos t0 h
    rw [fifoBytes_succ]
    refine ⟨by simpa using h 0 (by omega), ih (pos + 1) (fifo pos) ?_⟩
    intro k hk
    have := h (k + 1) (by omega)
    have e1 : pos + (k + 1) = pos + 1 + k := by omega
    rw [e1] at this
    cases k with
    | zero => simpa using this
    | succ k =>
      simp only [Nat.add_sub_cancel, Nat.succ_ne_zero, if_false] at this ⊢
      have e2 : pos + 1 + (k + 1) - 1 = pos + 1 + k := by omega
      rw [e2] at this ⊢
      exact this

theorem pairFree_eoi_of_forall (fifo : Nat → Nat) (n t0 : Nat)
    (h : ∀ k < n, ¬ eoiAt t0 fifo k) : pairFree 0xFF 0xD9 t0 (fifoBytes fifo 0 n) := by
  apply pairFree_fifoBytes
  intro k hk
  have := h k hk
  simpa [eoiAt] using this

theorem pairFree_soi_of_forall (fifo : Nat → Nat) (n : Nat)
    (h : ∀ j, j + 1 < n → ¬ soiAt fifo j) : pairFree 0xFF 0xD8 0 (fifoBytes fifo 0 n) := by
  apply pairFree_fifoBytes
  intro k hk
  cases k with
  | zero => simp
  | succ k =>
    have := h k (by omega)
    simp only [soiAt] at this
    simp only [Nat.zero_add, Nat.add_sub_cancel, Nat.succ_ne_zero, if_false]
    tauto

/-- The loop on a budget that runs out inside a frame: `j` is the index of the
first start-of-image pair and no end-of-image pair lies within the budget. -/
theorem drain_exhausted_in_frame (fifo : Nat → Nat) (n j : Nat) (buf0 : Nat → Nat)
    (hj : j + 1 < n) (hsoi : soiAt fifo j) (hfirst : ∀ j2 < j, ¬ soiAt fifo j2)
    (hno : ∀ k < n, ¬ eoiAt 0 fifo k) :
    sink (drain fifo n 0 (parserInit 0 buf0)).2
      = fifoBytes fifo j (256 * ((n - j - 1) / 256)) ∧
    (∀ bytes, Ev.fwrite bytes ∈ (drain fifo n 0 (parserInit 0 buf0)).2 → bytes.length = 256) ∧
    inBounds (drain fifo n 0 (parserInit 0 buf0)).2 = true := by
  obtain ⟨hs1, hs2⟩ := hsoi
  have hsplit : fifoBytes fifo 0 n
      = fifoBytes fifo 0 (j + 1) ++ (0xD8 :: fifoBytes fifo (j + 2) (n - j - 2)) := by
    have e : n = (j + 1) + ((n - j - 2) + 1) := by omega
    have e2 : fifoBytes fifo 0 n
        = fifoBytes fifo 0 (j + 1) ++ fifoBytes fifo (0 + (j + 1)) ((n - j - 2) + 1) := by
      rw [← fifoBytes_add, ← e]
    rw [e2, fifoBytes_succ (fifo) (0 + (j + 1))]
    simp only [Nat.zero_add]
    rw [hs2]
  have hfree := pairFree_eoi_of_forall fifo n 0 hno
  rw [hsplit, pairFree_append] at hfree
  obtain ⟨hf1, hf2⟩ := hfree
  have hlast : lastByte 0 (fifoBytes fifo 0 (j + 1)) = 0xFF := by
    rw [lastByte_fifoBytes]; simpa using hs1
  rw [hlast] at hf2
  obtain ⟨hf2a, hf2b⟩ := hf2
  have hsfree : pairFree 0xFF 0xD8 0 (fifoBytes fifo 0 (j + 1)) :=
    pairFree_soi_of_forall fifo (j + 1) (fun j2 hj2 => hfirst j2 (by omega))
  obtain ⟨s1, s2, s3, s4⟩ := drainL_searching (fifoBytes fifo 0 (j + 1)) (parserInit 0 buf0) rfl
    hf1 hsfree
  have st := drainL_temp (fifoBytes fifo 0 (j + 1)) (parserInit 0 buf0) hf1
  have st' : (drainL (fifoBytes fifo 0 (j + 1)) (parserInit 0 buf0)).1.temp = 0xFF := by
    rw [st]; exact hlast
  have hl := loop_body_soi 0xD8 (drainL (fifoBytes fifo 0 (j + 1)) (parserInit 0 buf0)).1 s2
    ⟨rfl, st'⟩
  have hb : (loop_body 0xD8 (drainL (fifoBytes fifo 0 (j + 1)) (parserInit 0 buf0)).1).2.2
      = false := by rw [hl]
  have htr := drain_eq_drainL fifo n 0 (parserInit 0 buf0)
  rw [hsplit, drainL_append _ _ _ hf1, drainL_cons_next _ _ _ hb, s1] at htr
  rw [htr]
  simp only
  generalize (drainL (fifoBytes fifo 0 (j + 1)) (parserInit 0 buf0)).1 = q1 at s2 s3 s4 st' hl hb
  have hq2i : (loop_body 0xD8 q1).1.i = 2 := by rw [hl, s3]; rfl
  have hq2b : (loop_body 0xD8 q1).1.buf = setBuf (setBuf buf0 0 0xFF) 1 0xD8 := by
    rw [hl, s3, s4, st']; rfl
  have hq2e : (loop_body 0xD8 q1).2.1
      = [Ev.read_fifo 0xD8, Ev.store 0 0xFF, Ev.store 1 0xD8] := by
    rw [hl, s3, st']; rfl
  have hfree2 : pairFree 0xFF 0xD9 (loop_body 0xD8 q1).1.temp
      (fifoBytes fifo (j + 2) (n - j - 2)) := by
    rw [loop_body_temp]; exact hf2b
  obtain ⟨_, r2, r3, r4, r5, r6, r7⟩ := drainL_inframe (fifoBytes fifo (j + 2) (n - j - 2))
    (loop_body 0xD8 q1).1 (by rw [hl]) (by rw [hq2i]; omega) (by rw [hq2i]; omega) hfree2
  rw [hq2i, hq2b] at r4
  rw [hq2e]
  generalize (drainL (fifoBytes fifo (j + 2) (n - j - 2)) (loop_body 0xD8 q1).1).2 = e
    at r4 r5 r6 r7
  generalize (drainL (fifoBytes fifo (j + 2) (n - j - 2)) (loop_body 0xD8 q1).1).1 = q
    at r2 r3 r4
  have hframe : fifoBytes fifo j (n - j) = 0xFF :: 0xD8 :: fifoBytes fifo (j + 2) (n - j - 2) := by
    generalize hm : n - j - 2 = m
    have e1 : n - j = m + 1 + 1 := by omega
    rw [e1, fifoBytes_succ, fifoBytes_succ, hs1, hs2]
  have hbuf2 : bufBytes (setBuf (setBuf buf0 0 0xFF) 1 0xD8) 2 = [0xFF, 0xD8] := by
    simpa [bufBytes] using bufBytes_push2 buf0 0 0xFF 0xD8
  rw [hbuf2] at r4
  have hlen := congrArg List.length r4
  simp only [List.length_append, bufBytes_length, fifoBytes_length, List.length_cons,
    List.length_nil] at hlen
  have hK : 256 * fwrites e = 256 * ((n - j - 1) / 256) := by omega
  have hsplit2 : fifoBytes fifo j (n - j)
      = fifoBytes fifo j (256 * fwrites e) ++ fifoBytes fifo (j + 256 * fwrites e) q.i := by
    rw [← fifoBytes_add]
    congr 1
    omega
  have r4' : sink e ++ bufBytes q.buf q.i
      = fifoBytes fifo j (256 * fwrites e) ++ fifoBytes fifo (j + 256 * fwrites e) q.i := by
    rw [r4, ← hsplit2, hframe]
    rfl
  have hsink : sink e = fifoBytes fifo j (256 * fwrites e) :=
    List.append_inj_left r4' (by rw [r5, fifoBytes_length])
  refine ⟨?_, ?_, ?_⟩
  · rw [sink_append, sink_append, sink_reads, hsink, hK]
    simp [sink, Ev.written]
  · intro bytes hm
    rcases List.mem_append.1 hm with hm | hm
    · simp at hm
    · rcases List.mem_append.1 hm with hm | hm
      · simp at hm
      · exact r6 bytes hm
  · rw [inBounds_append, inBounds_append, inBounds_reads, r7]
    simp [inBounds, Ev.inBounds, BUF_SIZE]

/-! ## A stream that holds one frame -/

theorem pairFree_snoc_ff (b t0 : Nat) (l : List Nat) (hb : b ≠ 0xFF) (h : pairFree 0xFF b t0 l) :
    pairFree 0xFF b t0 (l ++ [0xFF]) := by
  rw [pairFree_append]
  refine ⟨h, ?_, trivial⟩
  rintro ⟨h1, _⟩
  exact hb h1.symm

/-- The run of the loop over a stream that holds one frame, from a searching
state with `i0` bytes already counted in `buf`: the events of the run, with the
part `e3` between the two markers described by its effect. -/
theorem drain_framed (fifo : Nat → Nat) (n i0 : Nat) (buf0 : Nat → Nat)
    (pre body post : List Nat)
    (hstream : fifoBytes fifo 0 n = pre ++ [0xFF, 0xD8] ++ body ++ [0xFF, 0xD9] ++ post)
    (hi : i0 + 2 ≤ 256)
    (hpre8 : pairFree 0xFF 0xD8 0 pre) (hpre9 : pairFree 0xFF 0xD9 0 pre)
    (hbody : pairFree 0xFF 0xD9 0xD8 (body ++ [0xFF])) :
    ∃ (q3 : Parser) (e3 : List Ev),
      1 ≤ q3.i ∧ q3.i ≤ 256 ∧
      q3.i + 256 * fwrites e3 = i0 + body.length + 3 ∧
      sink e3 ++ bufBytes q3.buf q3.i = bufBytes buf0 i0 ++ [0xFF, 0xD8] ++ body ++ [0xFF] ∧
      (∀ bytes, Ev.fwrite bytes ∈ e3 → bytes.length = 256) ∧
      inBounds e3 = true ∧ reads e3 = body.length + 1 ∧ noCompletion e3 ∧
      (drain fifo n 0 (parserInit i0 buf0)).1.i = 0 ∧
      (drain fifo n 0 (parserInit i0 buf0)).2
        = (pre ++ [0xFF]).map Ev.read_fifo
          ++ ([Ev.read_fifo 0xD8, Ev.store i0 0xFF, Ev.store (i0 + 1) 0xD8] ++ e3
          ++ [Ev.read_fifo 0xD9, Ev.store q3.i 0xD9,
              Ev.fwrite (bufBytes q3.buf q3.i ++ [0xD9]), Ev.fclose,
              Ev.printf "Image save OK.\r\n" []]) := by
  have hshape : pre ++ [0xFF, 0xD8] ++ body ++ [0xFF, 0xD9] ++ post
      = (pre ++ [0xFF]) ++ (0xD8 :: ((body ++ [0xFF]) ++ 0xD9 :: post)) := by simp
  have h9 : pairFree 0xFF 0xD9 (parserInit i0 buf0).temp (pre ++ [0xFF]) :=
    pairFree_snoc_ff 0xD9 0 pre (by decide) hpre9
  have h8 : pairFree 0xFF 0xD8 (parserInit i0 buf0).temp (pre ++ [0xFF]) :=
    pairFree_snoc_ff 0xD8 0 pre (by decide) hpre8
  obtain ⟨s1, s2, s3, s4⟩ := drainL_searching (pre ++ [0xFF]) (parserInit i0 buf0) rfl h9 h8
  have st := drainL_temp (pre ++ [0xFF]) (parserInit i0 buf0) h9
  rw [lastByte_append_singleton] at st
  have s3' : (drainL (pre ++ [0xFF]) (parserInit i0 buf0)).1.i = i0 := s3
  have s4' : (drainL (pre ++ [0xFF]) (parserInit i0 buf0)).1.buf = buf0 := s4
  obtain ⟨q3, e3, f1, f2, f3, f4, f5, f6, f7, f8, f9, f10⟩ :=
    drainL_frame body post (drainL (pre ++ [0xFF]) (parserInit i0 buf0)).1 s2 st
      (by rw [s3']; exact hi) hbody
  rw [s3'] at f3 f10
  rw [s3', s4'] at f4
  refine ⟨q3, e3, f1, f2, f3, f4, f5, f6, f7, f8, ?_, ?_⟩
  · rw [drain_eq_drainL, hstream, hshape, drainL_append _ _ _ h9]
    exact f9
  · rw [drain_eq_drainL, hstream, hshape, drainL_append _ _ _ h9, s1, f10]

/-- Consequences of `drain_framed` for the sink, the read count and the
bounds of `buf`. -/
theorem drain_framed_summary (fifo : Nat → Nat) (n i0 : Nat) (buf0 : Nat → Nat)
    (pre body post : List Nat)
    (hstream : fifoBytes fifo 0 n = pre ++ [0xFF, 0xD8] ++ body ++ [0xFF, 0xD9] ++ post)
    (hi : i0 + 2 ≤ 256)
    (hpre8 : pairFree 0xFF 0xD8 0 pre) (hpre9 : pairFree 0xFF 0xD9 0 pre)
    (hbody : pairFree 0xFF 0xD9 0xD8 (body ++ [0xFF])) :
    sink (drain fifo n 0 (parserInit i0 buf0)).2
      = bufBytes buf0 i0 ++ [0xFF, 0xD8] ++ body ++ [0xFF, 0xD9] ∧
    (∃ tr0, (drain fifo n 0 (parserInit i0 buf0)).2
      = tr0 ++ [Ev.fclose, Ev.printf "Image save OK.\r\n" []] ∧ noCompletion tr0) ∧
    reads (drain fifo n 0 (parserInit i0 buf0)).2 = pre.length + body.length + 4 ∧
    (drain fifo n 0 (parserInit i0 buf0)).1.i = 0 ∧
    ((i0 + body.length + 3) % 256 ≠ 0 → inBounds (drain fifo n 0 (parserInit i0 buf0)).2 = true) ∧
    ((i0 + body.length + 3) % 256 = 0 →
      Ev.store 256 0xD9 ∈ (drain fifo n 0 (parserInit i0 buf0)).2 ∧
      ∃ bytes, Ev.fwrite bytes ∈ (drain fifo n 0 (parserInit i0 buf0)).2 ∧ bytes.length = 257) := by
  obtain ⟨q3, e3, f1, f2, f3, f4, f5, f6, f7, f8, f9, f10⟩ :=
    drain_framed fifo n i0 buf0 pre body post hstream hi hpre8 hpre9 hbody
  rw [f10]
  refine ⟨?_, ?_, ?_, f9, ?_, ?_⟩
  · simp only [sink_append, sink_reads, List.nil_append]
    have e1 : sink [Ev.read_fifo 0xD8, Ev.store i0 0xFF, Ev.store (i0 + 1) 0xD8] = [] := rfl
    have e2 : sink [Ev.read_fifo 0xD9, Ev.store q3.i 0xD9,
        Ev.fwrite (bufBytes q3.buf q3.i ++ [0xD9]), Ev.fclose,
        Ev.printf "Image save OK.\r\n" []] = bufBytes q3.buf q3.i ++ [0xD9] := by
      simp [sink, Ev.written]
    rw [e1, e2, List.nil_append, ← List.append_assoc, f4]
    simp
  · refine ⟨(pre ++ [0xFF]).map Ev.read_fifo
      ++ ([Ev.read_fifo 0xD8, Ev.store i0 0xFF, Ev.store (i0 + 1) 0xD8] ++ e3
      ++ [Ev.read_fifo 0xD9, Ev.store q3.i 0xD9, Ev.fwrite (bufBytes q3.buf q3.i ++ [0xD9])]),
      by simp, ?_⟩
    obtain ⟨g1, g2⟩ := f8
    constructor
    · simp [g1]
    · simp [g2]
  · simp only [reads_append, reads_reads, f7]
    simp [reads, Ev.isRead]
    omega
  · intro hmod
    have hq : q3.i < 256 := by omega
    simp only [inBounds_append, inBounds_reads, f6]
    simp [inBounds, Ev.inBounds, BUF_SIZE, bufBytes_length]
    omega
  · intro hmod
    have hq : q3.i = 256 := by omega
    constructor
    · simp [hq]
    · exact ⟨bufBytes q3.buf q3.i ++ [0xD9], by simp, by simp [bufBytes_length, hq]⟩

/-- Framing of a stream that holds one frame whose length is not 1 modulo 256,
from the per-capture initial state: the sink receives exactly the frame, the
file is closed after the last write, every access stays inside `buf`, and the
bytes after the frame are not read. -/
theorem framing_within_buf (fifo : Nat → Nat) (n : Nat) (buf0 : Nat → Nat)
    (pre body post : List Nat)
    (hstream : fifoBytes fifo 0 n = pre ++ [0xFF, 0xD8] ++ body ++ [0xFF, 0xD9] ++ post)
    (hpre8 : pairFree 0xFF 0xD8 0 pre) (hpre9 : pairFree 0xFF 0xD9 0 pre)
    (hbody : pairFree 0xFF 0xD9 0xD8 (body ++ [0xFF]))
    (hlen : ([0xFF, 0xD8] ++ body ++ [0xFF, 0xD9]).length % 256 ≠ 1) :
    sink (drain fifo n 0 (parserInit 0 buf0)).2 = [0xFF, 0xD8] ++ body ++ [0xFF, 0xD9] ∧
    (∃ tr0, (drain fifo n 0 (parserInit 0 buf0)).2
      = tr0 ++ [Ev.fclose, Ev.printf "Image save OK.\r\n" []] ∧ noCompletion tr0) ∧
    inBounds (drain fifo n 0 (parserInit 0 buf0)).2 = true ∧
    reads (drain fifo n 0 (parserInit 0 buf0)).2 = pre.length + body.length + 4 := by
  obtain ⟨h1, h2, h3, _, h5, _⟩ :=
    drain_framed_summary fifo n 0 buf0 pre body post hstream (by decide) hpre8 hpre9 hbody
  simp only [List.length_append, List.length_cons, List.length_nil] at hlen
  refine ⟨?_, h2, h5 (by omega), h3⟩
  rw [h1]
  simp [bufBytes]

/-- The end-to-end scenario: with budget 8 the sink receives `FF D8 01 02 FF D9`
and seven bytes are read. -/
theorem scenario_output :
    sink (take_picture arducamHdr POWER_MODE false Globals.init scenarioCapture).2
      = [0xFF, 0xD8, 0x01, 0x02, 0xFF, 0xD9] ∧
    reads (take_picture arducamHdr POWER_MODE false Globals.init scenarioCapture).2 = 7 := by
  decide

/-! ## The events of `take_picture` around the drain loop -/

/-- Events of `take_picture` before the drain loop when the file opens. -/
theorem take_picture_open (h : Hdr) (mode : Nat) (cs : Bool) (g : Globals) (c : Capture)
    (hopen : c.openOk = true) :
    (take_picture h mode cs g c).2
      = (preCapture h mode ++ capture h c.polls (c.length % 2 ^ 32) ++ postCapture mode)
        ++ [Ev.fopen (snprintf_fname g.fnamecntcamera) true, Ev.printf "file opend\r\n" [],
            Ev.set_fifo_burst]
        ++ (drain c.fifo (c.length % 2 ^ 32) 0 (parserInit g.i c.buf0)).2
        ++ [Ev.printf "file save finished\r\n" []] := by
  simp [take_picture, hopen]

theorem sink_setup (h : Hdr) (mode polls length : Nat) :
    sink (preCapture h mode ++ capture h polls length ++ postCapture mode) = [] := by
  simp only [sink, preCapture, capture, postCapture]
  split_ifs <;> simp [Ev.written]

theorem fwrites_setup (h : Hdr) (mode polls length : Nat) :
    fwrites (preCapture h mode ++ capture h polls length ++ postCapture mode) = 0 := by
  simp only [fwrites, preCapture, capture, postCapture]
  split_ifs <;> simp [List.countP_replicate]

theorem reads_setup (h : Hdr) (mode polls length : Nat) :
    reads (preCapture h mode ++ capture h polls length ++ postCapture mode) = 0 := by
  simp only [reads, preCapture, capture, postCapture]
  split_ifs <;> simp [List.countP_replicate, Ev.isRead]

theorem noCompletion_setup (h : Hdr) (mode polls length : Nat) :
    noCompletion (preCapture h mode ++ capture h polls length ++ postCapture mode) := by
  simp only [noCompletion, preCapture, capture, postCapture]
  split_ifs <;> simp [List.mem_replicate]

theorem fwrite_not_mem_setup (h : Hdr) (mode polls length : Nat) (bytes : List Nat) :
    Ev.fwrite bytes ∉ preCapture h mode ++ capture h polls length ++ postCapture mode := by
  simp only [preCapture, capture, postCapture]
  split_ifs <;> simp [List.mem_replicate]

theorem inBounds_setup (h : Hdr) (mode polls length : Nat) :
    inBounds (preCapture h mode ++ capture h polls length ++ postCapture mode) = true := by
  simp only [inBounds, preCapture, capture, postCapture]
  split_ifs <;> simp [Ev.inBounds]

theorem take_picture_counter (h : Hdr) (mode : Nat) (cs : Bool) (g : Globals) (c : Capture) :
    (take_picture h mode cs g c).1.fnamecntcamera = wrapChar cs (g.fnamecntcamera + 1) := by
  cases hopen : c.openOk <;> simp [take_picture, hopen]

theorem loop_body_no_fopen (b : Nat) (p : Parser) : fopenNames (loop_body b p).2.1 = [] := by
  rcases loop_body_cases b p with h | ⟨h, hh, hi⟩ | ⟨h, hh, hi⟩ | ⟨h, hh, hs⟩ | ⟨h, hh, hs⟩
  · rw [loop_body_eoi b p h]; rfl
  · rw [loop_body_append b p h hh hi]; rfl
  · rw [loop_body_flush b p h hh hi]; rfl
  · rw [loop_body_soi b p hh hs]; rfl
  · rw [loop_body_skip b p h hh hs]; rfl

theorem fopenNames_append (a b : List Ev) : fopenNames (a ++ b) = fopenNames a ++ fopenNames b := by
  simp [fopenNames]

theorem drain_no_fopen (fifo : Nat → Nat) (n : Nat) : ∀ (pos : Nat) (p : Parser),
    fopenNames (drain fifo n pos p).2 = [] := by
  induction n with
  | zero => intro pos p; rfl
  | succ n ih =>
    intro pos p
    cases hb : (loop_body (fifo pos) p).2.2
    · rw [drain_succ_next fifo n pos p hb, fopenNames_append, loop_body_no_fopen, ih]
      rfl
    · rw [drain_succ_brk fifo n pos p hb, loop_body_no_fopen]

theorem fopenNames_setup (h : Hdr) (mode polls length : Nat) :
    fopenNames (preCapture h mode ++ capture h polls length ++ postCapture mode) = [] := by
  simp only [fopenNames, preCapture, capture, postCapture]
  split_ifs <;> simp [List.filterMap_replicate]

/-- Every call passes to `fopen` exactly one name, made from the counter as it
is on entry. -/
theorem take_picture_fopen (h : Hdr) (mode : Nat) (cs : Bool) (g : Globals) (c : Capture) :
    fopenNames (take_picture h mode cs g c).2 = [snprintf_fname g.fnamecntcamera] := by
  cases hopen : c.openOk
  · have e : (take_picture h mode cs g c).2
        = (preCapture h mode ++ capture h c.polls (c.length % 2 ^ 32) ++ postCapture mode)
          ++ [Ev.fopen (snprintf_fname g.fnamecntcamera) false,
              Ev.printf "open file failed\r\n" [], Ev.wait_ms 500] := by
      simp [take_picture, hopen]
    rw [e, fopenNames_append, fopenNames_setup]
    rfl
  · rw [take_picture_open h mode cs g c hopen]
    rw [fopenNames_append, fopenNames_append, fopenNames_append, fopenNames_setup,
      drain_no_fopen]
    rfl

theorem wrapChar_succ (cs : Bool) (v : Int) :
    wrapChar cs (wrapChar cs v + 1) = wrapChar cs (v + 1) := by
  cases cs <;> simp only [wrapChar, if_true, Bool.false_eq_true, if_false] <;> omega

theorem wrapChar_small (cs : Bool) (k : Nat) (hk : k < charSpan cs) :
    wrapChar cs (k : Int) = k := by
  cases cs <;> simp only [wrapChar, charSpan, if_true, Bool.false_eq_true, if_false] at hk ⊢ <;>
    omega

/-- The counter and the names over a sequence of calls that starts with the
counter at the `char` value of `m`. -/
theorem captures_counter_names (h : Hdr) (mode : Nat) (cs : Bool) (l : List Capture) :
    ∀ (g : Globals) (m : Nat), g.fnamecntcamera = wrapChar cs m →
    (captures h mode cs g l).1.fnamecntcamera = wrapChar cs ((m + l.length : Nat) : Int) ∧
    (captures h mode cs g l).2.map fopenNames
      = (List.range l.length).map (fun k => [snprintf_fname (wrapChar cs ((m + k : Nat) : Int))]) := by
  induction l with
  | nil => intro g m hg; exact ⟨by simpa [captures] using hg, by simp [captures]⟩
  | cons c cs' ih =>
    intro g m hg
    have hnext : (take_picture h mode cs g c).1.fnamecntcamera = wrapChar cs ((m + 1 : Nat) : Int) := by
      rw [take_picture_counter, hg, wrapChar_succ]
      simp
    obtain ⟨ih1, ih2⟩ := ih (take_picture h mode cs g c).1 (m + 1) hnext
    constructor
    · simp only [captures, List.length_cons]
      rw [ih1]
      have e : m + 1 + cs'.length = m + (cs'.length + 1) := by omega
      rw [e]
    · simp only [captures, List.length_cons, List.map_cons]
      rw [ih2, take_picture_fopen, hg, List.range_succ_eq_map, List.map_cons, List.map_map]
      simp only [Nat.add_zero, List.cons.injEq, true_and]
      apply List.map_congr_left
      intro k _
      simp only [Function.comp, Nat.succ_eq_add_one]
      have e : m + 1 + k = m + (k + 1) := by omega
      rw [e]

set_option maxRecDepth 100000 in
theorem snprintf_fname_small : ∀ k < 256, snprintf_fname ((k : Nat) : Int) = jpssName k := by
  decide

theorem digitChar_inj : ∀ a < 10, ∀ b < 10, digitChar a = digitChar b → a = b := by
  decide

theorem jpssName_inj (j k : Nat) (hj : j < 10000) (hk : k < 10000)
    (h : jpssName j = jpssName k) : j = k := by
  have h' := congrArg String.data h
  simp only [jpssName] at h'
  have h2 := List.append_cancel_left (List.append_cancel_right h')
  simp only [List.cons.injEq, and_true] at h2
  obtain ⟨h3, h2, h1, h0⟩ := h2
  have e3 := digitChar_inj _ (Nat.mod_lt _ (by decide)) _ (Nat.mod_lt _ (by decide)) h3
  have e2 := digitChar_inj _ (Nat.mod_lt _ (by decide)) _ (Nat.mod_lt _ (by decide)) h2
  have e1 := digitChar_inj _ (Nat.mod_lt _ (by decide)) _ (Nat.mod_lt _ (by decide)) h1
  have e0 := digitChar_inj _ (Nat.mod_lt _ (by decide)) _ (Nat.mod_lt _ (by decide)) h0
  omega

theorem loop_body_no_config (b : Nat) (p : Parser) :
    ∀ e ∈ (loop_body b p).2.1, e ≠ Ev.InitCAM ∧ ∀ f, e ≠ Ev.set_format f := by
  rcases loop_body_cases b p with h | ⟨h, hh, hi⟩ | ⟨h, hh, hi⟩ | ⟨h, hh, hs⟩ | ⟨h, hh, hs⟩
  · rw [loop_body_eoi b p h]; simp
  · rw [loop_body_append b p h hh hi]; simp
  · rw [loop_body_flush b p h hh hi]; simp
  · rw [loop_body_soi b p hh hs]; simp
  · rw [loop_body_skip b p h hh hs]; simp

/-- The drain loop does not touch the sensor configuration. -/
theorem drain_no_config (fifo : Nat → Nat) (n : Nat) : ∀ (pos : Nat) (p : Parser),
    ∀ e ∈ (drain fifo n pos p).2, e ≠ Ev.InitCAM ∧ ∀ f, e ≠ Ev.set_format f := by
  induction n with
  | zero => intro pos p e he; simp [drain] at he
  | succ n ih =>
    intro pos p e he
    cases hb : (loop_body (fifo pos) p).2.2
    · rw [drain_succ_next fifo n pos p hb] at he
      rcases List.mem_append.1 he with he | he
      · exact loop_body_no_config _ _ e he
      · exact ih _ _ e he
    · rw [drain_succ_brk fifo n pos p hb] at he
      exact loop_body_no_config _ _ e he

/-! ## The wiring loop -/

/-- The wiring loop that meets its first read-back of `0x55` after `m` failed
passes, counted from read-back `start`. -/
theorem wiring_loop_first (h : Hdr) (rd : Nat → Nat) (m : Nat) : ∀ (start fuel : Nat),
    rd (start + m) = 0x55 → (∀ j < m, rd (start + j) ≠ 0x55) → m < fuel →
    wiring_loop h rd fuel start
      = some (((List.range (m + 1)).map (fun j => wiringPass h (rd (start + j)))).flatten) := by
  induction m with
  | zero =>
    intro start fuel hm _ hf
    obtain ⟨f, rfl⟩ : ∃ f, fuel = f + 1 := ⟨fuel - 1, by omega⟩
    have hm' : rd start = 0x55 := by simpa using hm
    simp [wiring_loop, wiringPass, hm', List.range_succ]
  | succ m ih =>
    intro start fuel hm hne hf
    obtain ⟨f, rfl⟩ : ∃ f, fuel = f + 1 := ⟨fuel - 1, by omega⟩
    have h0 : rd start ≠ 0x55 := by simpa using hne 0 (by omega)
    have hm' : rd (start + 1 + m) = 0x55 := by
      have e : start + 1 + m = start + (m + 1) := by omega
      rw [e]; exact hm
    have hne' : ∀ j < m, rd (start + 1 + j) ≠ 0x55 := by
      intro j hj
      have e : start + 1 + j = start + (j + 1) := by omega
      rw [e]; exact hne (j + 1) (by omega)
    have := ih (start + 1) f hm' hne' (by omega)
    rw [wiring_loop]
    simp only [h0, ne_eq, not_false_eq_true, if_true, this, Option.map_some']
    congr 1
    rw [List.range_succ_eq_map (m + 1), List.map_cons, List.flatten_cons, List.map_map]
    simp only [wiringPass, h0, ne_eq, not_false_eq_true, if_true, Nat.add_zero]
    have e : (fun j => wiringPass h (rd (start + 1 + j)))
        = (fun j => wiringPass h (rd (start + j))) ∘ Nat.succ := by
      funext j
      simp only [Function.comp, Nat.succ_eq_add_one]
      have e : start + 1 + j = start + (j + 1) := by omega
      rw [e]
    simp only [wiringPass, ne_eq] at e
    rw [e]
    simp

theorem inBounds_false_of_store (tr : List Ev) (idx v : Nat) (hm : Ev.store idx v ∈ tr)
    (hidx : BUF_SIZE ≤ idx) : inBounds tr = false := by
  cases hb : inBounds tr
  · rfl
  · have := List.all_eq_true.1 hb _ hm
    simp only [Ev.inBounds, decide_eq_true_eq] at this
    omega

/-! ## The claims -/

/-- C1 (framing correctness). For every stream and budget `n` whose first `n`
bytes are `pre`, `FF D8`, `body`, `FF D9`, `post`, where `pre` holds no adjacent
pair `FF D8` or `FF D9` and the span holds no adjacent pair `FF D9` before its
last two bytes, the drain loop, started in the per-capture initial state
(searching, previous byte 0, `i = 0`, any contents of `buf`), writes to the sink
bytes whose concatenation in write order is exactly `FF D8`, `body`, `FF D9`, and
then closes the file: the run ends with `fclose` and the report of a saved
image, and holds no other `fclose`.  It reads the bytes up to the end of the
span and none of `post`.  This is so for every length of `body`. -/
theorem framing_correct (fifo : Nat → Nat) (n : Nat) (buf0 : Nat → Nat)
    (pre body post : List Nat)
    (hstream : fifoBytes fifo 0 n = pre ++ [0xFF, 0xD8] ++ body ++ [0xFF, 0xD9] ++ post)
    (hpre8 : pairFree 0xFF 0xD8 0 pre) (hpre9 : pairFree 0xFF 0xD9 0 pre)
    (hbody : pairFree 0xFF 0xD9 0xD8 (body ++ [0xFF])) :
    sink (drain fifo n 0 (parserInit 0 buf0)).2 = [0xFF, 0xD8] ++ body ++ [0xFF, 0xD9] ∧
    (∃ tr0, (drain fifo n 0 (parserInit 0 buf0)).2
      = tr0 ++ [Ev.fclose, Ev.printf "Image save OK.\r\n" []] ∧ noCompletion tr0) ∧
    reads (drain fifo n 0 (parserInit 0 buf0)).2 = pre.length + body.length + 4 := by
  obtain ⟨h1, h2, h3, _⟩ :=
    drain_framed_summary fifo n 0 buf0 pre body post hstream (by decide) hpre8 hpre9 hbody
  refine ⟨?_, h2, h3⟩
  rw [h1]
  simp [bufBytes]

/-- The end-to-end scenario `00 FF D8 01 02 FF D9 99` with budget 8: the sink
receives `FF D8 01 02 FF D9`. -/
theorem framing_correct_witness :
    sink (drain (fifoOf scenario) 8 0 (parserInit 0 zeroBuf)).2
      = [0xFF, 0xD8, 0x01, 0x02, 0xFF, 0xD9] :=
  (framing_correct (fifoOf scenario) 8 zeroBuf [0x00] [0x01, 0x02] [0x99] (by decide)
    (by decide) (by decide) (by decide)).1

/-- C2 (degenerate EOI while searching). When the first pair `FF D9` of the
stream ends at index `k` within the budget and no pair `FF D8` precedes it, the
loop, still searching, takes that pair for the end of the image: having read
and dropped the `k` bytes before, it stores the `0xD9` at `buf[0]`, writes that
one byte to the sink, closes the file, reports a saved image and stops reading.
The claim has it write nothing there and go on searching. -/
theorem eoi_while_searching_completes (fifo : Nat → Nat) (n k : Nat) (buf0 : Nat → Nat)
    (hk : k < n) (hat : eoiAt 0 fifo k) (hfirst : ∀ j < k, ¬ eoiAt 0 fifo j)
    (hnosoi : ∀ j < k, ¬ soiAt fifo j) :
    (drain fifo n 0 (parserInit 0 buf0)).2
      = (fifoBytes fifo 0 k).map Ev.read_fifo
        ++ [Ev.read_fifo 0xD9, Ev.store 0 0xD9, Ev.fwrite [0xD9], Ev.fclose,
            Ev.printf "Image save OK.\r\n" []] := by
  obtain ⟨hk9, hkf⟩ := hat
  have hk0 : k ≠ 0 := by
    rintro rfl
    simp at hkf
  simp only [hk0, if_false] at hkf
  obtain ⟨m, rfl⟩ : ∃ m, k = m + 1 := ⟨k - 1, by omega⟩
  simp only [Nat.add_sub_cancel] at hkf
  have hsplit : fifoBytes fifo 0 n
      = fifoBytes fifo 0 (m + 1) ++ (0xD9 :: fifoBytes fifo (m + 2) (n - m - 2)) := by
    have e : n = (m + 1) + ((n - m - 2) + 1) := by omega
    have e2 : fifoBytes fifo 0 n
        = fifoBytes fifo 0 (m + 1) ++ fifoBytes fifo (0 + (m + 1)) ((n - m - 2) + 1) := by
      rw [← fifoBytes_add, ← e]
    rw [e2, fifoBytes_succ (fifo) (0 + (m + 1))]
    simp only [Nat.zero_add]
    rw [hk9]
  have hf9 : pairFree 0xFF 0xD9 (parserInit 0 buf0).temp (fifoBytes fifo 0 (m + 1)) :=
    pairFree_eoi_of_forall fifo (m + 1) 0 hfirst
  have hf8 : pairFree 0xFF 0xD8 (parserInit 0 buf0).temp (fifoBytes fifo 0 (m + 1)) :=
    pairFree_soi_of_forall fifo (m + 1) (fun j hj => hnosoi j (by omega))
  obtain ⟨s1, s2, s3, s4⟩ := drainL_searching _ (parserInit 0 buf0) rfl hf9 hf8
  have st := drainL_temp _ (parserInit 0 buf0) hf9
  rw [lastByte_fifoBytes, Nat.zero_add, hkf] at st
  have he := loop_body_eoi 0xD9 (drainL (fifoBytes fifo 0 (m + 1)) (parserInit 0 buf0)).1
    ⟨rfl, st⟩
  have hb : (loop_body 0xD9 (drainL (fifoBytes fifo 0 (m + 1)) (parserInit 0 buf0)).1).2.2
      = true := by rw [he]
  have s3' : (drainL (fifoBytes fifo 0 (m + 1)) (parserInit 0 buf0)).1.i = 0 := s3
  have s4' : (drainL (fifoBytes fifo 0 (m + 1)) (parserInit 0 buf0)).1.buf = buf0 := s4
  rw [drain_eq_drainL, hsplit, drainL_append _ _ _ hf9, drainL_cons_brk _ _ _ hb, s1, he]
  simp only [s3', s4']
  have e : bufBytes (setBuf buf0 0 0xD9) (0 + 1) = [0xD9] := by
    simpa [bufBytes] using bufBytes_push buf0 0 0xD9
  rw [e]

/-- The stream `FF D9 FF D8 01 FF D9` with budget 7: the run ends at the second
byte with the single byte `D9` in the sink and the file closed. -/
theorem eoi_while_searching_completes_witness :
    (drain (fifoOf eoiFirst) 7 0 (parserInit 0 zeroBuf)).2
      = [Ev.read_fifo 0xFF, Ev.read_fifo 0xD9, Ev.store 0 0xD9, Ev.fwrite [0xD9], Ev.fclose,
         Ev.printf "Image save OK.\r\n" []] :=
  eoi_while_searching_completes (fifoOf eoiFirst) 7 1 zeroBuf (by decide) (by decide)
    (by decide) (by decide)

/-- C3 (capacity of the chunk buffer). For a stream whose single frame has
total length `256 * k + 257`, in a capture started with an empty buffer, `buf`
holds 256 bytes when the final `0xD9` arrives: the loop stores it at index 256,
outside `uint8_t buf[256]`, and the sink write that follows takes 257 bytes.
The claim has every store below index 256 and every write at most 256 bytes. -/
theorem eoi_store_outside_buf (fifo : Nat → Nat) (n k : Nat) (buf0 : Nat → Nat)
    (pre body post : List Nat)
    (hstream : fifoBytes fifo 0 n = pre ++ [0xFF, 0xD8] ++ body ++ [0xFF, 0xD9] ++ post)
    (hpre8 : pairFree 0xFF 0xD8 0 pre) (hpre9 : pairFree 0xFF 0xD9 0 pre)
    (hbody : pairFree 0xFF 0xD9 0xD8 (body ++ [0xFF]))
    (hlen : ([0xFF, 0xD8] ++ body ++ [0xFF, 0xD9]).length = 256 * k + 257) :
    Ev.store 256 0xD9 ∈ (drain fifo n 0 (parserInit 0 buf0)).2 ∧
    (∃ bytes, Ev.fwrite bytes ∈ (drain fifo n 0 (parserInit 0 buf0)).2 ∧ bytes.length = 257) ∧
    inBounds (drain fifo n 0 (parserInit 0 buf0)).2 = false := by
  have hs := drain_framed_summary fifo n 0 buf0 pre body post hstream (by decide) hpre8 hpre9
    hbody
  simp only [List.length_append, List.length_cons, List.length_nil] at hlen
  obtain ⟨h1, h2⟩ := hs.2.2.2.2.2 (by omega)
  exact ⟨h1, h2, inBounds_false_of_store _ 256 0xD9 h1 (by decide)⟩

/-- A stream of 260 bytes: one byte, a frame of 257 bytes, two more bytes. -/
theorem eoi_store_outside_buf_witness :
    Ev.store 256 0xD9
      ∈ (drain (fifoOf ([0x00] ++ [0xFF, 0xD8] ++ List.replicate 253 0x11 ++ [0xFF, 0xD9]
          ++ [0x99, 0x98])) 260 0 (parserInit 0 zeroBuf)).2 :=
  (eoi_store_outside_buf _ 260 0 zeroBuf [0x00] (List.replicate 253 0x11) [0x99, 0x98]
    (by decide) (by decide) (by decide) (by decide) (by decide)).1

/-- C4 (byte budget bound). From every state `p` of the parser, on every stream
and every budget `n`, the drain loop (a total function: it terminates) calls
`read_fifo` at most `n` times; exactly `n` times when its end-of-image test
succeeds at none of the first `n` bytes; and exactly `k + 1` times when `k < n`
is the first index at which the test succeeds, so no byte after that one is
read. -/
theorem drain_read_budget (fifo : Nat → Nat) (n : Nat) (p : Parser) :
    reads (drain fifo n 0 p).2 ≤ n ∧
    ((∀ k < n, ¬ eoiAt p.temp fifo k) → reads (drain fifo n 0 p).2 = n) ∧
    (∀ k < n, eoiAt p.temp fifo k → (∀ j < k, ¬ eoiAt p.temp fifo j) →
      reads (drain fifo n 0 p).2 = k + 1) := by
  have h := reads_drain fifo n 0 p
  simpa only [Nat.zero_add] using h

/-- In the end-to-end scenario the end of the image is detected at index 6 and
7 of the 8 bytes are read. -/
theorem drain_read_budget_witness :
    reads (drain (fifoOf scenario) 8 0 (parserInit 0 zeroBuf)).2 = 6 + 1 :=
  (drain_read_budget (fifoOf scenario) 8 (parserInit 0 zeroBuf)).2.2 6 (by decide) (by decide)
    (by decide)

/-- Budget exhaustion in a call of `take_picture` whose file opens and in which
the end-of-image test succeeds at none of the `n` bytes of the budget: the file
is never closed and no saved image is reported.  When the call starts with the
buffer index `i` at 0, and the first pair `FF D8` of the stream starts at index
`j` with both bytes inside the budget, `m = n - j` frame bytes arrive and the
sink receives exactly the first `256 * ((m - 1) / 256)` of them, each write
being a whole chunk of 256 bytes and every access staying inside `buf`; what is
left in `buf` is not written.  When the budget holds no pair `FF D8`, nothing is
written. -/
theorem budget_exhaustion (h : Hdr) (mode : Nat) (cs : Bool) (g : Globals) (c : Capture)
    (hopen : c.openOk = true) (hlen : c.length < 2 ^ 32)
    (hno : ∀ k < c.length, ¬ eoiAt 0 c.fifo k) :
    noCompletion (take_picture h mode cs g c).2 ∧
    (g.i = 0 → ∀ j, j + 1 < c.length → soiAt c.fifo j → (∀ j2 < j, ¬ soiAt c.fifo j2) →
      sink (take_picture h mode cs g c).2
        = fifoBytes c.fifo j (256 * ((c.length - j - 1) / 256)) ∧
      (∀ bytes, Ev.fwrite bytes ∈ (take_picture h mode cs g c).2 → bytes.length = 256) ∧
      inBounds (take_picture h mode cs g c).2 = true) ∧
    ((∀ j, j + 1 < c.length → ¬ soiAt c.fifo j) → fwrites (take_picture h mode cs g c).2 = 0) := by
  have hmod : c.length % 2 ^ 32 = c.length := Nat.mod_eq_of_lt hlen
  have htr := take_picture_open h mode cs g c hopen
  rw [hmod] at htr
  have hS1 := noCompletion_setup h mode c.polls c.length
  have hS2 := sink_setup h mode c.polls c.length
  have hS3 := fwrite_not_mem_setup h mode c.polls c.length
  have hS4 := fwrites_setup h mode c.polls c.length
  have hS5 := inBounds_setup h mode c.polls c.length
  generalize preCapture h mode ++ capture h c.polls c.length ++ postCapture mode = S
    at htr hS1 hS2 hS3 hS4 hS5
  have hfree := pairFree_eoi_of_forall c.fifo c.length 0 hno
  refine ⟨?_, ?_, ?_⟩
  · rw [htr]
    simp only [noCompletion_append]
    refine ⟨⟨⟨hS1, by simp [noCompletion]⟩, ?_⟩, by simp [noCompletion]⟩
    rw [drain_eq_drainL]
    exact (drainL_no_eoi _ (parserInit g.i c.buf0) hfree).2
  · intro hi j hj hsoi hfirst
    obtain ⟨d1, d2, d3⟩ := drain_exhausted_in_frame c.fifo c.length j c.buf0 hj hsoi hfirst hno
    rw [htr, hi]
    refine ⟨?_, ?_, ?_⟩
    · simp only [sink_append, hS2, d1]
      simp [sink, Ev.written]
    · intro bytes hm
      simp only [List.mem_append] at hm
      rcases hm with ((hm | hm) | hm) | hm
      · exact absurd hm (hS3 bytes)
      · simp at hm
      · exact d2 bytes hm
      · simp at hm
    · simp only [inBounds_append, hS5, d3]
      simp [inBounds, Ev.inBounds]
  · intro hnosoi
    have hs := pairFree_soi_of_forall c.fifo c.length hnosoi
    obtain ⟨s1, _⟩ := drainL_searching _ (parserInit g.i c.buf0) rfl hfree hs
    rw [htr, drain_eq_drainL, s1]
    simp only [fwrites_append, hS4, fwrites_reads]
    simp [fwrites]

/-- A budget of 301 bytes that ends 300 bytes into a frame: the first 256 frame
bytes reach the sink. -/
theorem budget_exhaustion_witness :
    sink (take_picture arducamHdr POWER_MODE false Globals.init longCutCapture).2
      = [0xFF, 0xD8] ++ List.replicate 254 0x11 :=
  ((budget_exhaustion arducamHdr POWER_MODE false Globals.init longCutCapture rfl (by decide)
    (by decide)).2.1 rfl 1 (by decide) (by decide) (by decide)).1

/-- C5 (budget exhaustion), at two successive calls from program start. The
first call receives `FF D8 01` with budget 3 and leaves the function-static
index `i` at 3.  The second receives `FF D8` and 254 payload bytes with budget
256: no end-of-image pair, the start-of-image pair at index 0, so `m = 256`
frame bytes arrive and `256 * ((m - 1) / 256) = 0` of them are to be written.
The file is indeed not closed and no saved image is reported, but the loop
writes one chunk of 256 bytes: the three bytes its array held on entry, then
`FF D8` and 251 payload bytes. -/
theorem budget_exhaustion_stale_index :
    (take_picture arducamHdr POWER_MODE false Globals.init cutCapture).1.i = 3 ∧
    soiAt openFrame256.fifo 0 ∧ (∀ k < 256, ¬ eoiAt 0 openFrame256.fifo k) ∧
    fifoBytes openFrame256.fifo 0 (256 * ((256 - 0 - 1) / 256)) = [] ∧
    sink (take_picture arducamHdr POWER_MODE false
        (take_picture arducamHdr POWER_MODE false Globals.init cutCapture).1 openFrame256).2
      = [0xAA, 0xAA, 0xAA, 0xFF, 0xD8] ++ List.replicate 251 0x11 ∧
    noCompletion (take_picture arducamHdr POWER_MODE false
        (take_picture arducamHdr POWER_MODE false Globals.init cutCapture).1 openFrame256).2 := by
  refine ⟨rfl, by decide, by decide, rfl, by decide, ?_⟩
  exact (budget_exhaustion arducamHdr POWER_MODE false _ openFrame256 rfl (by decide)
    (by decide)).1

/-- C6 (fresh parser state per capture). After a call whose budget of 3 bytes
ends inside the frame (`FF D8 01`), the function-static index `i` is 3, so the
next call enters its drain loop with `i = 3`, not 0: given the 4-byte frame
`FF D8 FF D9` it writes the 7 bytes `buf[0..7)`, the first three being whatever
its uninitialised array holds, where the same call at program start writes the
4 bytes of the frame. -/
theorem stale_index_after_cut_capture (buf0 : Nat → Nat) :
    (take_picture arducamHdr POWER_MODE false Globals.init cutCapture).1.i = 3 ∧
    sink (take_picture arducamHdr POWER_MODE false
        (take_picture arducamHdr POWER_MODE false Globals.init cutCapture).1
        (tinyCapture buf0)).2
      = [buf0 0, buf0 1, buf0 2, 0xFF, 0xD8, 0xFF, 0xD9] ∧
    sink (take_picture arducamHdr POWER_MODE false Globals.init (tinyCapture buf0)).2
      = [0xFF, 0xD8, 0xFF, 0xD9] := by
  refine ⟨rfl, rfl, rfl⟩

/-- C7, against the claim: one call whose `fopen` fails leaves the counter at 1,
while no call has opened a file. -/
theorem counter_differs_from_opens :
    (captures arducamHdr POWER_MODE false Globals.init [failedOpen]).1.fnamecntcamera = 1 ∧
    opens [failedOpen] = 0 ∧
    (captures arducamHdr POWER_MODE false Globals.init [failedOpen]).1.fnamecntcamera
      ≠ (opens [failedOpen] : Int) := by
  decide

/-- C7, as amended. The counter is incremented once in every call of
`take_picture`, before `fopen` is attempted and whatever its outcome or the
stream: after `N` calls from 0 it holds `N` converted to the 8-bit `char`, which
is `N` itself as long as `N` is below 256 (below 128 where `char` is signed). -/
theorem counter_counts_calls (h : Hdr) (mode : Nat) (cs : Bool) (l : List Capture) :
    (captures h mode cs Globals.init l).1.fnamecntcamera = wrapChar cs (l.length : Int) ∧
    (l.length < charSpan cs →
      (captures h mode cs Globals.init l).1.fnamecntcamera = (l.length : Int)) := by
  have hc := (captures_counter_names h mode cs l Globals.init 0 (by cases cs <;> rfl)).1
  simp only [Nat.zero_add] at hc
  exact ⟨hc, fun hl => by rw [hc, wrapChar_small cs _ hl]⟩

/-- C8, against the claim: in 257 calls whose opens all succeed, the call of
index 256 opens "/sd/jpss0000.jpg", the name the call of index 0 opened, whether
`char` is unsigned or signed. -/
theorem file_name_reused_after_256_calls :
    ((captures arducamHdr POWER_MODE false Globals.init
        (List.replicate 257 emptyCapture)).2.map fopenNames)[0]? = some ["/sd/jpss0000.jpg"] ∧
    ((captures arducamHdr POWER_MODE false Globals.init
        (List.replicate 257 emptyCapture)).2.map fopenNames)[256]? = some ["/sd/jpss0000.jpg"] ∧
    ((captures arducamHdr POWER_MODE true Globals.init
        (List.replicate 257 emptyCapture)).2.map fopenNames)[0]? = some ["/sd/jpss0000.jpg"] ∧
    ((captures arducamHdr POWER_MODE true Globals.init
        (List.replicate 257 emptyCapture)).2.map fopenNames)[256]? = some ["/sd/jpss0000.jpg"] := by
  have hu := (captures_counter_names arducamHdr POWER_MODE false
    (List.replicate 257 emptyCapture) Globals.init 0 rfl).2
  have hs := (captures_counter_names arducamHdr POWER_MODE true
    (List.replicate 257 emptyCapture) Globals.init 0 rfl).2
  rw [hu, hs]
  simp only [List.length_replicate, List.getElem?_map]
  have h0 : (List.range 257)[0]? = some 0 := List.getElem?_range (by decide)
  have h256 : (List.range 257)[256]? = some 256 := List.getElem?_range (by decide)
  rw [h0, h256]
  decide

/-- C8, as amended. For every `N` up to 256 (up to 128 where `char` is signed),
in `N` successive calls of `take_picture` the call of index `k` passes to `fopen`
exactly the name "/sd/jpss", `k` as four decimal digits, ".jpg", whatever the
outcome of the opens and of the captures; these `N` names are pairwise
distinct. -/
theorem file_names_within_char_span (h : Hdr) (mode : Nat) (cs : Bool) (l : List Capture)
    (hN : l.length ≤ charSpan cs) :
    (captures h mode cs Globals.init l).2.map fopenNames
      = (List.range l.length).map (fun k => [jpssName k]) ∧
    (∀ j k, j < k → k < l.length → jpssName j ≠ jpssName k) := by
  have hspan : charSpan cs ≤ 256 := by cases cs <;> decide
  constructor
  · rw [(captures_counter_names h mode cs l Globals.init 0 (by cases cs <;> rfl)).2]
    apply List.map_congr_left
    intro k hk
    have hk' : k < l.length := List.mem_range.1 hk
    simp only [Nat.zero_add]
    rw [wrapChar_small cs k (by omega), snprintf_fname_small k (by omega)]
  · intro j k hjk hk hname
    have := jpssName_inj j k (by omega) (by omega) hname
    omega

/-- The three calls of `main`: the names are 0000, 0001, 0002 although the
second open fails. -/
theorem file_names_within_char_span_witness :
    (captures arducamHdr POWER_MODE false Globals.init
        [scenarioCapture, failedOpen, cutCapture]).2.map fopenNames
      = (List.range 3).map (fun k => [jpssName k]) :=
  (file_names_within_char_span arducamHdr POWER_MODE false
    [scenarioCapture, failedOpen, cutCapture] (by decide)).1

/-- C9, against the claim: in the end-to-end scenario under the LowPower
profile, `set_format(BMP)` is event 16 of the call and the first `read_fifo` is
event 22: the switch back to the idle format precedes the drain. -/
theorem low_power_switch_precedes_reads :
    (take_picture arducamHdr LOW_POWER false Globals.init scenarioCapture).2[16]?
      = some (Ev.set_format Format.BMP) ∧
    (take_picture arducamHdr LOW_POWER false Globals.init scenarioCapture).2[22]?
      = some (Ev.read_fifo 0x00) ∧
    ¬ (∀ (j k b : Nat), (take_picture arducamHdr LOW_POWER false Globals.init scenarioCapture).2[j]?
          = some (Ev.read_fifo b) →
        (take_picture arducamHdr LOW_POWER false Globals.init scenarioCapture).2[k]?
          = some (Ev.set_format Format.BMP) → j < k) := by
  refine ⟨by decide, by decide, fun hall => ?_⟩
  have := hall 22 16 0x00 (by decide) (by decide)
  omega

/-- C9, as amended. Under the LowPower profile the run of `take_picture` is the
pre-capture configuration (which sets JPEG) and the capture up to the read of
the FIFO length, then the switch back `set_format(BMP)`, `InitCAM`, wait 500 ms,
then the rest: no `read_fifo` call precedes the switch, every `read_fifo` call
of the capture is in the rest, `set_format(JPEG)` is the only format change
before the switch and there is none after it. -/
theorem low_power_switch_before_drain (h : Hdr) (cs : Bool) (g : Globals) (c : Capture) :
    ∃ rest : List Ev,
      (take_picture h LOW_POWER cs g c).2
        = (preCapture h LOW_POWER ++ capture h c.polls (c.length % 2 ^ 32))
          ++ [Ev.set_format Format.BMP, Ev.InitCAM, Ev.wait_ms 500] ++ rest ∧
      reads (preCapture h LOW_POWER ++ capture h c.polls (c.length % 2 ^ 32)) = 0 ∧
      reads rest = reads (take_picture h LOW_POWER cs g c).2 ∧
      Ev.read_fifo_length (c.length % 2 ^ 32)
        ∈ preCapture h LOW_POWER ++ capture h c.polls (c.length % 2 ^ 32) ∧
      (preCapture h LOW_POWER ++ capture h c.polls (c.length % 2 ^ 32)).filter Ev.isSetFormat
        = [Ev.set_format Format.JPEG] ∧
      (∀ e ∈ rest, e ≠ Ev.InitCAM ∧ ∀ f, e ≠ Ev.set_format f) := by
  have hpre : reads (preCapture h LOW_POWER ++ capture h c.polls (c.length % 2 ^ 32)) = 0 := by
    simp [reads, preCapture, capture, List.countP_replicate, Ev.isRead]
  have hlen : Ev.read_fifo_length (c.length % 2 ^ 32)
      ∈ preCapture h LOW_POWER ++ capture h c.polls (c.length % 2 ^ 32) := by
    simp [capture]
  have hfmt : (preCapture h LOW_POWER
      ++ capture h c.polls (c.length % 2 ^ 32)).filter Ev.isSetFormat
      = [Ev.set_format Format.JPEG] := by
    simp [preCapture, capture, List.filter_cons, Ev.isSetFormat, List.filter_replicate]
  cases hopen : c.openOk
  · refine ⟨[Ev.fopen (snprintf_fname g.fnamecntcamera) false,
      Ev.printf "open file failed\r\n" [], Ev.wait_ms 500], ?_, hpre, ?_, hlen, hfmt, ?_⟩
    · simp [take_picture, hopen, postCapture]
    · have e : (take_picture h LOW_POWER cs g c).2
          = (preCapture h LOW_POWER ++ capture h c.polls (c.length % 2 ^ 32))
            ++ [Ev.set_format Format.BMP, Ev.InitCAM, Ev.wait_ms 500,
                Ev.fopen (snprintf_fname g.fnamecntcamera) false,
                Ev.printf "open file failed\r\n" [], Ev.wait_ms 500] := by
        simp [take_picture, hopen, postCapture]
      rw [e, reads_append, hpre]
      rfl
    · simp
  · refine ⟨[Ev.fopen (snprintf_fname g.fnamecntcamera) true, Ev.printf "file opend\r\n" [],
        Ev.set_fifo_burst]
      ++ (drain c.fifo (c.length % 2 ^ 32) 0 (parserInit g.i c.buf0)).2
      ++ [Ev.printf "file save finished\r\n" []], ?_, hpre, ?_, hlen, hfmt, ?_⟩
    · simp [take_picture, hopen, postCapture]
    · rw [take_picture_open h LOW_POWER cs g c hopen]
      simp only [postCapture, if_true, reads_append, hpre]
      simp [reads, Ev.isRead]
    · intro e he
      rcases List.mem_append.1 he with he | he
      · rcases List.mem_append.1 he with he | he
        · simp only [List.mem_cons, List.mem_singleton, List.not_mem_nil, or_false] at he
          rcases he with rfl | rfl | rfl <;> simp
        · exact drain_no_config _ _ _ _ e he
      · simp only [List.mem_singleton] at he
        subst he
        simp

/-- C10 (wiring gate of the bring-up state machine). When the first read-back of
the test register equal to `0x55` is the `k`-th (`k ≥ 1`), `check_wiring`
returns, on any fuel of at least `k` iterations, and its run is exactly `k`
passes of (write `0x55` to `ARDUCHIP_TEST1`, wait 200 ms, one read-back, two
prints) followed by the reset pulse `write(0x07,0x80)`, wait 100 ms,
`write(0x07,0x00)`, wait 100 ms, the sensor page select and the two chip-ID
reads.  In particular `0x55` is written exactly `k` times and nothing of the
reset pulse or the chip-ID reads precedes the `k`-th read-back. -/
theorem check_wiring_gate (h : Hdr) (rd : Nat → Nat) (vid pid k fuel : Nat) (hk : 1 ≤ k)
    (hat : rd (k - 1) = 0x55) (hfirst : ∀ j < k - 1, rd j ≠ 0x55) (hfuel : k ≤ fuel) :
    check_wiring h rd vid pid fuel
      = some (((List.range k).map (fun j => wiringPass h (rd j))).flatten
          ++ wiring_tail h vid pid) ∧
    (((List.range k).map (fun j => wiringPass h (rd j))).flatten).count
      (Ev.write_reg h.ARDUCHIP_TEST1 0x55) = k ∧
    (∀ e ∈ ((List.range k).map (fun j => wiringPass h (rd j))).flatten,
      e ≠ Ev.write_reg 0x07 0x80 ∧ e ≠ Ev.write_reg 0x07 0x00 ∧
      ∀ a v, e ≠ Ev.rdSensorReg16_8 a v) ∧
    (wiring_tail h vid pid).take 7
      = [Ev.write_reg 0x07 0x80, Ev.wait_ms 100, Ev.write_reg 0x07 0x00, Ev.wait_ms 100,
         Ev.wrSensorReg16_8 0xff 0x01, Ev.rdSensorReg16_8 h.OV5642_CHIPID_HIGH vid,
         Ev.rdSensorReg16_8 h.OV5642_CHIPID_LOW pid] := by
  obtain ⟨m, rfl⟩ : ∃ m, k = m + 1 := ⟨k - 1, by omega⟩
  refine ⟨?_, ?_, ?_, rfl⟩
  · have := wiring_loop_first h rd m 0 fuel (by simpa using hat)
      (fun j hj => by simpa using hfirst j (by omega)) (by omega)
    simp only [Nat.zero_add] at this
    simp [check_wiring, this]
  · generalize m + 1 = k
    induction k with
    | zero => simp
    | succ k ih =>
      rw [List.range_succ, List.map_append, List.flatten_append, List.count_append, ih]
      simp only [List.map_cons, List.map_nil, List.flatten_cons, List.flatten_nil,
        List.append_nil, wiringPass]
      split_ifs <;> simp [List.count_cons]
  · intro e he
    simp only [List.mem_flatten, List.mem_map, List.mem_range] at he
    obtain ⟨l, ⟨j, _, rfl⟩, hel⟩ := he
    simp only [wiringPass, List.mem_cons, List.mem_singleton, List.not_mem_nil, or_false] at hel
    rcases hel with rfl | rfl | rfl | rfl | rfl
    · simp
    · simp
    · simp
    · simp
    · split_ifs <;> simp

/-- Two failed read-backs, then `0x55`: three passes and then the reset. -/
theorem check_wiring_gate_witness :
    check_wiring arducamHdr (fifoOf [0x00, 0xFF, 0x55, 0x55]) 0x56 0x42 5
      = some (((List.range 3).map
          (fun j => wiringPass arducamHdr (fifoOf [0x00, 0xFF, 0x55, 0x55] j))).flatten
          ++ wiring_tail arducamHdr 0x56 0x42) :=
  (check_wiring_gate arducamHdr (fifoOf [0x00, 0xFF, 0x55, 0x55]) 0x56 0x42 3 5 (by decide)
    (by decide) (by decide) (by decide)).1

end Ov5642
